import Mathlib

/-!
# Topic request sender (dataRetriever/topicSender/topicRequestSender.go)

A shallow embedding of the peer-selection and request-dispatch code of the
topic request sender, followed by theorems about it.

Conventions of the embedding.

* Go `int` values are Lean `Int`; the one addition of two unconstrained
  quotas (`checkArgs`) wraps in two's complement on 64 bits (`addInt`).
  Counters of successful sends are bounded by slice lengths and never wrap.
* Every call to an external collaborator appends one `Event` to a
  chronological `Trace`.  A collaborator is an oracle: its answer is a
  function of the trace so far and of its arguments, so answers may depend
  on everything that happened before (stateful randomizers, peers that
  fail on the second attempt, and so on).
* A Go run-time panic (slice index out of range) is the result `none`.
* The `sync.RWMutex` fields are not modelled: every operation below is one
  sequential call.
-/

set_option autoImplicit false

namespace TopicSender

/-! ## Data model -/

/-- PeerID mirrors `core.PeerID`, a named string type; the empty string is "no peer". -/
abbrev PeerID := String

/-- Bytes mirrors a Go `[]byte`. -/
abbrev Bytes := List Nat

/-- Modelled from the spec: `dataRetriever.RequestData` is declared outside src; it is an
opaque payload carrying at least an epoch number and an identifying value. The pointer
received by `SendOnRequestTopic` is taken to be non-nil. -/
structure RequestData where
  Value : Bytes
  Epoch : Nat
  deriving DecidableEq, Repr

/-- Go error values met by this code: the sentinel errors of package `dataRetriever`
(declared outside src, so only their identity is kept), errors produced by collaborators,
and `fmt.Errorf` results that wrap an error with `%w` and continue with formatted text. -/
inductive GoError where
  | ErrNilMarshalizer
  | ErrNilRandomizer
  | ErrNilPeerListCreator
  | ErrNilCurrentNetworkEpochProvider
  | ErrNilPeersRatingHandler
  | ErrNilSelfShardIDProvider
  | ErrInvalidValue
  | ErrSendRequest
  | external (msg : String)
  | wrapf (inner : GoError) (text : String)
  deriving DecidableEq, Repr

/-- Histogram mirrors the local `map[string]int`; a missing key reads as 0. -/
abbrev Histogram := List (String × Int)

/-- Reading `histogramMap[key]`. -/
def histGet : Histogram → String → Int
  | [], _ => 0
  | (k, v) :: rest, key => if k = key then v else histGet rest key

/-- The statement `histogramMap[key]++`. -/
def histIncr : Histogram → String → Histogram
  | [], key => [(key, 1)]
  | (k, v) :: rest, key => if k = key then (k, v + 1) :: rest else (k, v) :: histIncr rest key

/-- One observable interaction of the sender with the outside world. -/
inductive Event where
  | Marshal (rd : RequestData)
  | EpochIsActiveInNetwork (epoch : Nat)
  | CrossShardPeerList
  | IntraShardPeerList
  | FullHistoryList
  | PreferredPeersGet
  | Intn (n : Int)
  | GetTopRatedPeersFromList (peers : List PeerID) (numPeers : Int)
  | FisherYatesShuffle (indexes : List Int)
  | sendToConnectedPeer (topic : String) (buff : Bytes) (peer : PeerID) (err : Option GoError)
  | LogRequestedData (topic : String) (hashes : List Bytes) (numIntra numCross : Int)
  | SelfId
  | traceSendingToPreferred (peer : String) (topic : String) (peerType : String)
  | traceRequestsSent (logData : List String)
  | traceHistogram (maxToSend : Int) (topic : String) (histogram : Histogram)
  deriving DecidableEq, Repr

/-- The chronological record of interactions. -/
abbrev Trace := List Event

/-! ## Collaborators (interfaces declared outside src) -/

/-- Interface `marshal.Marshalizer`. -/
structure Marshalizer where
  IsInterfaceNil : Bool
  Marshal : Trace → RequestData → Except GoError Bytes

/-- Interface `dataRetriever.IntRandomizer`. -/
structure IntRandomizer where
  IsInterfaceNil : Bool
  Intn : Trace → Int → Int

/-- Interface `dataRetriever.PeerListCreator`. -/
structure PeerListCreator where
  IsInterfaceNil : Bool
  CrossShardPeerList : Trace → List PeerID
  IntraShardPeerList : Trace → List PeerID
  FullHistoryList : Trace → List PeerID

/-- Interface `dataRetriever.CurrentNetworkEpochProviderHandler`. -/
structure CurrentNetworkEpochProviderHandler where
  IsInterfaceNil : Bool
  EpochIsActiveInNetwork : Trace → Nat → Bool

/-- Interface `dataRetriever.PeersRatingHandler`. -/
structure PeersRatingHandler where
  IsInterfaceNil : Bool
  GetTopRatedPeersFromList : Trace → List PeerID → Int → List PeerID

/-- Interface `dataRetriever.SelfShardIDProvider`. -/
structure SelfShardIDProvider where
  IsInterfaceNil : Bool
  SelfId : Trace → Nat

/-- Interface `dataRetriever.PreferredPeersHolderHandler`; `Get` returns a
`map[uint32][]core.PeerID`, read here through its lookup function. -/
structure PreferredPeersHolderHandler where
  IsInterfaceNil : Bool
  Get : Trace → Nat → Option (List PeerID)

/-- Modelled from the spec: `baseTopicSender` is declared in baseTopicSender.go, which is
not in src.  It "holds locking primitives, debug-handler and preferred-peer-holder access,
and the low-level per-peer send primitive".  The send primitive `sendToConnectedPeer`
is an oracle returning the Go error (`none` is a nil error). -/
structure baseTopicSender where
  sendToConnectedPeer : Trace → String → Bytes → PeerID → Option GoError
  preferredPeersHolderHandler : PreferredPeersHolderHandler
  targetShardId : Nat

/-- Modelled from the spec: `ArgBaseTopicSender` is declared in baseTopicSender.go, which
is not in src.  The code under src reads only its `TopicName`; the remaining content is
what `createBaseTopicSender` turns into the base sender. -/
structure ArgBaseTopicSender where
  TopicName : String
  TargetShardId : Nat
  PreferredPeersHolder : PreferredPeersHolderHandler
  Messenger : Trace → String → Bytes → PeerID → Option GoError

/-- Declarations used by the code but absent from src, taken as parameters: the package
constants, the two base-sender functions, the library shuffle `random.FisherYatesShuffle`
and the `Pretty` method of a peer id. -/
structure Deps where
  minPeersToQuery : Int
  preferredPeerIndex : Int
  topicRequestSuffix : String
  checkBaseTopicSenderArgs : ArgBaseTopicSender → Option GoError
  createBaseTopicSender : ArgBaseTopicSender → baseTopicSender
  FisherYatesShuffle : Trace → List Int → IntRandomizer → List Int
  Pretty : PeerID → String
  CrossShardPeerString : String
  IntraShardPeerString : String
  FullHistoryPeerString : String

/-- ArgTopicRequestSender is the argument structure used to create a new sender. -/
structure ArgTopicRequestSender where
  ArgBaseTopicSender : ArgBaseTopicSender
  Marshaller : Marshalizer
  Randomizer : IntRandomizer
  PeerListCreator : PeerListCreator
  NumIntraShardPeers : Int
  NumCrossShardPeers : Int
  NumFullHistoryPeers : Int
  CurrentNetworkEpochProvider : CurrentNetworkEpochProviderHandler
  SelfShardIdProvider : SelfShardIDProvider
  PeersRatingHandler : PeersRatingHandler

/-- The sender: identity, shard context, collaborators and the mutable quota triple. -/
structure topicRequestSender where
  baseTopicSender : baseTopicSender
  marshaller : Marshalizer
  topicName : String
  peerListCreator : PeerListCreator
  randomizer : IntRandomizer
  numIntraShardPeers : Int
  numCrossShardPeers : Int
  numFullHistoryPeers : Int
  currentNetworkEpochProviderHandler : CurrentNetworkEpochProviderHandler
  peersRatingHandler : PeersRatingHandler
  selfShardId : Nat

/-! ## Machine integers -/

/-- Two's-complement reduction of an integer to the 64-bit range of a Go `int`. -/
def wrapInt (x : Int) : Int := (x + 2 ^ 63) % 2 ^ 64 - 2 ^ 63

/-- Go `a + b` on `int`. -/
def addInt (a b : Int) : Int := wrapInt (a + b)

/-- Membership in the range of a 64-bit Go `int`. -/
def IsInt64 (x : Int) : Bool := decide (-(2 ^ 63) ≤ x ∧ x < 2 ^ 63)

/-! ## Construction -/

/-- Function `checkArgs`; `none` is the nil error. -/
def checkArgs (deps : Deps) (args : ArgTopicRequestSender) : Option GoError :=
  match deps.checkBaseTopicSenderArgs args.ArgBaseTopicSender with
  | some err => some err
  | none =>
    if args.Marshaller.IsInterfaceNil then some GoError.ErrNilMarshalizer
    else if args.Randomizer.IsInterfaceNil then some GoError.ErrNilRandomizer
    else if args.PeerListCreator.IsInterfaceNil then some GoError.ErrNilPeerListCreator
    else if args.CurrentNetworkEpochProvider.IsInterfaceNil then
      some GoError.ErrNilCurrentNetworkEpochProvider
    else if args.PeersRatingHandler.IsInterfaceNil then some GoError.ErrNilPeersRatingHandler
    else if args.SelfShardIdProvider.IsInterfaceNil then some GoError.ErrNilSelfShardIDProvider
    else if args.NumIntraShardPeers < 0 then
      some (GoError.wrapf GoError.ErrInvalidValue
        " for NumIntraShardPeers as the value should be greater or equal than 0")
    else if args.NumCrossShardPeers < 0 then
      some (GoError.wrapf GoError.ErrInvalidValue
        " for NumCrossShardPeers as the value should be greater or equal than 0")
    else if args.NumFullHistoryPeers < 0 then
      some (GoError.wrapf GoError.ErrInvalidValue
        " for NumFullHistoryPeers as the value should be greater or equal than 0")
    else if addInt args.NumCrossShardPeers args.NumIntraShardPeers < deps.minPeersToQuery then
      some (GoError.wrapf GoError.ErrInvalidValue
        (" for NumCrossShardPeers, NumIntraShardPeers as their sum should be greater or equal than "
          ++ toString deps.minPeersToQuery))
    else none

/-- Function `NewTopicRequestSender`; the pair `(nil, err)` is `Except.error err`. -/
def NewTopicRequestSender (deps : Deps) (args : ArgTopicRequestSender) (tr : Trace) :
    Except GoError topicRequestSender × Trace :=
  match checkArgs deps args with
  | some err => (Except.error err, tr)
  | none =>
    (Except.ok
      { baseTopicSender := deps.createBaseTopicSender args.ArgBaseTopicSender
        marshaller := args.Marshaller
        topicName := args.ArgBaseTopicSender.TopicName
        peerListCreator := args.PeerListCreator
        randomizer := args.Randomizer
        numIntraShardPeers := args.NumIntraShardPeers
        numCrossShardPeers := args.NumCrossShardPeers
        numFullHistoryPeers := args.NumFullHistoryPeers
        currentNetworkEpochProviderHandler := args.CurrentNetworkEpochProvider
        peersRatingHandler := args.PeersRatingHandler
        selfShardId := args.SelfShardIdProvider.SelfId tr },
     tr ++ [Event.SelfId])

/-! ## Quota access -/

/-- Method `SetNumPeersToQuery`. -/
def SetNumPeersToQuery (trs : topicRequestSender) (intra cross : Int) : topicRequestSender :=
  { trs with numIntraShardPeers := intra, numCrossShardPeers := cross }

/-- Method `NumPeersToQuery`. -/
def NumPeersToQuery (trs : topicRequestSender) : Int × Int :=
  (trs.numIntraShardPeers, trs.numCrossShardPeers)

/-! ## Peer selection and dispatch -/

/-- Function `createIndexList`: the slice `[0, 1, ..., listLength-1]`. -/
def createIndexList (listLength : Nat) : List Int :=
  (List.range listLength).map (fun (i : Nat) => Int.ofNat i)

/-- Function `getPeerID`.  It returns the target peer together with the updated histogram
and trace; `none` is the panic of `peersList[index]` with the index out of range. -/
def getPeerID (deps : Deps) (index : Int) (peersList : List PeerID) (preferredPeer : PeerID)
    (peerType : String) (topic : String) (histogramMap : Histogram) (tr : Trace) :
    Option (PeerID × Histogram × Trace) :=
  if index = deps.preferredPeerIndex then
    some (preferredPeer, histIncr histogramMap "preferred",
      tr ++ [Event.traceSendingToPreferred (deps.Pretty preferredPeer) topic peerType])
  else if index < 0 then none
  else
    match peersList[index.toNat]? with
    | none => none
    | some peer => some (peer, histIncr histogramMap peerType, tr)

/-- The local variables of `sendOnTopic` that its loop updates, with the trace. -/
structure LoopState where
  msgSentCounter : Int
  logData : List String
  histogramMap : Histogram
  trace : Trace
  deriving DecidableEq, Repr

/-- The `for idx` loop of `sendOnTopic`, over the entries of `shuffledIndexes` not yet
visited.  A failed send is `continue`; the loop ends by `break` when the counter equals
`maxToSend`, or when the entries are exhausted. -/
def sendLoop (deps : Deps) (trs : topicRequestSender) (topRatedPeersList : List PeerID)
    (preferredPeer : PeerID) (topicToSendRequest : String) (buff : Bytes) (maxToSend : Int)
    (peerType : String) : List Int → LoopState → Option LoopState
  | [], st => some st
  | index :: rest, st =>
    match getPeerID deps index topRatedPeersList preferredPeer peerType topicToSendRequest
        st.histogramMap st.trace with
    | none => none
    | some (peer, histogramMap, tr) =>
      let err := trs.baseTopicSender.sendToConnectedPeer tr topicToSendRequest buff peer
      let tr1 := tr ++ [Event.sendToConnectedPeer topicToSendRequest buff peer err]
      match err with
      | some _ =>
        sendLoop deps trs topRatedPeersList preferredPeer topicToSendRequest buff maxToSend
          peerType rest
          { msgSentCounter := st.msgSentCounter, logData := st.logData,
            histogramMap := histogramMap, trace := tr1 }
      | none =>
        let st1 : LoopState :=
          { msgSentCounter := st.msgSentCounter + 1,
            logData := st.logData ++ [peerType, deps.Pretty peer],
            histogramMap := histogramMap, trace := tr1 }
        if st1.msgSentCounter = maxToSend then some st1
        else
          sendLoop deps trs topRatedPeersList preferredPeer topicToSendRequest buff maxToSend
            peerType rest st1

/-- The sequence walked by the loop of `sendOnTopic`: the shuffled indexes, with
`preferredPeerIndex` put in front when `shouldSendToPreferredPeer` holds. -/
def walkedIndexes (deps : Deps) (preferredPeer : PeerID) (maxToSend : Int)
    (shuffledIndexes : List Int) : List Int :=
  if preferredPeer ≠ "" ∧ maxToSend > 1 then deps.preferredPeerIndex :: shuffledIndexes
  else shuffledIndexes

/-- Method `sendOnTopic`: the number of successful sends and the trace after the call. -/
def sendOnTopic (deps : Deps) (trs : topicRequestSender) (peerList : List PeerID)
    (preferredPeer : PeerID) (topicToSendRequest : String) (buff : Bytes) (maxToSend : Int)
    (peerType : String) (tr : Trace) : Option (Int × Trace) :=
  if peerList.length = 0 ∨ maxToSend = 0 then some (0, tr)
  else
    let topRatedPeersList := trs.peersRatingHandler.GetTopRatedPeersFromList tr peerList maxToSend
    let tr1 := tr ++ [Event.GetTopRatedPeersFromList peerList maxToSend]
    let indexes := createIndexList topRatedPeersList.length
    let shuffledIndexes := deps.FisherYatesShuffle tr1 indexes trs.randomizer
    let tr2 := tr1 ++ [Event.FisherYatesShuffle indexes]
    match sendLoop deps trs topRatedPeersList preferredPeer topicToSendRequest buff maxToSend
        peerType (walkedIndexes deps preferredPeer maxToSend shuffledIndexes)
        { msgSentCounter := 0, logData := [], histogramMap := [], trace := tr2 } with
    | none => none
    | some st =>
      some (st.msgSentCounter,
        st.trace ++ [Event.traceRequestsSent st.logData,
          Event.traceHistogram maxToSend topicToSendRequest st.histogramMap])

/-- Method `getPreferredPeersInShard`. -/
def getPreferredPeersInShard (trs : topicRequestSender) (shardID : Nat) (tr : Trace) :
    (List PeerID × Bool) × Trace :=
  let preferredPeers := trs.baseTopicSender.preferredPeersHolderHandler.Get tr
  let tr1 := tr ++ [Event.PreferredPeersGet]
  match preferredPeers shardID with
  | none => (([], false), tr1)
  | some peers => if peers.length = 0 then (([], false), tr1) else ((peers, true), tr1)

/-- Method `getPreferredPeer`; `none` is the panic of `peersInShard[randomIdx]` with the
index out of range. -/
def getPreferredPeer (trs : topicRequestSender) (shardID : Nat) (tr : Trace) :
    Option (PeerID × Trace) :=
  match getPreferredPeersInShard trs shardID tr with
  | ((_, false), tr1) => some ("", tr1)
  | ((peersInShard, true), tr1) =>
    let randomIdx := trs.randomizer.Intn tr1 peersInShard.length
    let tr2 := tr1 ++ [Event.Intn peersInShard.length]
    if randomIdx < 0 then none
    else
      match peersInShard[randomIdx.toNat]? with
      | none => none
      | some peer => some (peer, tr2)

/-- Method `callDebugHandler`. -/
def callDebugHandler (trs : topicRequestSender) (originalHashes : List Bytes)
    (numSentIntra numSentCross : Int) (tr : Trace) : Trace :=
  tr ++ [Event.LogRequestedData trs.topicName originalHashes numSentIntra numSentCross]

/-- The local variables of `SendOnRequestTopic` after its epoch branch. -/
structure PhaseResult where
  numSentIntra : Int
  numSentCross : Int
  intraPeers : List PeerID
  crossPeers : List PeerID
  fullHistoryPeers : List PeerID
  trace : Trace
  deriving DecidableEq, Repr

/-- The `if EpochIsActiveInNetwork ... else ...` statement of `SendOnRequestTopic`. -/
def sendPhases (deps : Deps) (trs : topicRequestSender) (rd : RequestData)
    (topicToSendRequest : String) (buff : Bytes) (tr : Trace) : Option PhaseResult :=
  let active := trs.currentNetworkEpochProviderHandler.EpochIsActiveInNetwork tr rd.Epoch
  let tr1 := tr ++ [Event.EpochIsActiveInNetwork rd.Epoch]
  if active then
    let crossPeers := trs.peerListCreator.CrossShardPeerList tr1
    let tr2 := tr1 ++ [Event.CrossShardPeerList]
    match getPreferredPeer trs trs.baseTopicSender.targetShardId tr2 with
    | none => none
    | some (preferredCross, tr3) =>
      match sendOnTopic deps trs crossPeers preferredCross topicToSendRequest buff
          trs.numCrossShardPeers deps.CrossShardPeerString tr3 with
      | none => none
      | some (numSentCross, tr4) =>
        let intraPeers := trs.peerListCreator.IntraShardPeerList tr4
        let tr5 := tr4 ++ [Event.IntraShardPeerList]
        match getPreferredPeer trs trs.selfShardId tr5 with
        | none => none
        | some (preferredIntra, tr6) =>
          match sendOnTopic deps trs intraPeers preferredIntra topicToSendRequest buff
              trs.numIntraShardPeers deps.IntraShardPeerString tr6 with
          | none => none
          | some (numSentIntra, tr7) =>
            some { numSentIntra := numSentIntra, numSentCross := numSentCross,
                   intraPeers := intraPeers, crossPeers := crossPeers,
                   fullHistoryPeers := [], trace := tr7 }
  else
    let fullHistoryPeers := trs.peerListCreator.FullHistoryList tr1
    let tr2 := tr1 ++ [Event.FullHistoryList]
    match sendOnTopic deps trs fullHistoryPeers "" topicToSendRequest buff
        trs.numFullHistoryPeers deps.FullHistoryPeerString tr2 with
    | none => none
    | some (numSentIntra, tr3) =>
      some { numSentIntra := numSentIntra, numSentCross := 0,
             intraPeers := [], crossPeers := [],
             fullHistoryPeers := fullHistoryPeers, trace := tr3 }

/-- The text that follows the wrapped `ErrSendRequest` in the error of
`SendOnRequestTopic`: `", topic: %s, crossPeers: %d, intraPeers: %d, fullHistoryPeers: %d"`. -/
def sendRequestText (topicName : String) (crossPeers intraPeers fullHistoryPeers : Nat) : String :=
  ", topic: " ++ topicName ++ ", crossPeers: " ++ toString crossPeers ++
    ", intraPeers: " ++ toString intraPeers ++
    ", fullHistoryPeers: " ++ toString fullHistoryPeers

/-- Method `SendOnRequestTopic`: the returned error (`none` is nil) and the trace after
the call. -/
def SendOnRequestTopic (deps : Deps) (trs : topicRequestSender) (rd : RequestData)
    (originalHashes : List Bytes) (tr : Trace) : Option (Option GoError × Trace) :=
  let tr0 := tr ++ [Event.Marshal rd]
  match trs.marshaller.Marshal tr rd with
  | Except.error err => some (some err, tr0)
  | Except.ok buff =>
    let topicToSendRequest := trs.topicName ++ deps.topicRequestSuffix
    match sendPhases deps trs rd topicToSendRequest buff tr0 with
    | none => none
    | some r =>
      let tr1 := callDebugHandler trs originalHashes r.numSentIntra r.numSentCross r.trace
      if r.numSentCross + r.numSentIntra = 0 then
        some (some (GoError.wrapf GoError.ErrSendRequest
          (sendRequestText trs.topicName r.crossPeers.length r.intraPeers.length
            r.fullHistoryPeers.length)), tr1)
      else some (none, tr1)

/-! ## Reading a trace -/

/-- The per-peer send attempts recorded in a trace, in order: the target and whether the
send succeeded. -/
def sendAttempts : Trace → List (PeerID × Bool)
  | [] => []
  | Event.sendToConnectedPeer _ _ peer err :: rest => (peer, err.isNone) :: sendAttempts rest
  | _ :: rest => sendAttempts rest

/-- The peers to which a send was attempted, in order. -/
def attemptedPeers (tr : Trace) : List PeerID := (sendAttempts tr).map Prod.fst

/-- The peer that `getPeerID` returns for an index (`none` when it panics); the peer does
not depend on the label, the topic, the histogram or the trace. -/
def targetOf (deps : Deps) (peersList : List PeerID) (preferredPeer : PeerID) (index : Int) :
    Option PeerID :=
  (getPeerID deps index peersList preferredPeer "" "" [] []).map (fun r => r.1)

/-- Every walked index is the preferred token or a valid position of the peer list. -/
def ValidIndexes (deps : Deps) (peersList : List PeerID) (seq : List Int) : Prop :=
  ∀ i ∈ seq, i = deps.preferredPeerIndex ∨ (0 ≤ i ∧ i < peersList.length)

/-- The value of the local `topRatedPeersList` in a call of `sendOnTopic` that starts at
trace `tr` and passes the guard. -/
def topRatedOf (trs : topicRequestSender) (peerList : List PeerID) (maxToSend : Int)
    (tr : Trace) : List PeerID :=
  trs.peersRatingHandler.GetTopRatedPeersFromList tr peerList maxToSend

/-- The value returned by `random.FisherYatesShuffle` in a call of `sendOnTopic` that starts
at trace `tr` and passes the guard. -/
def shuffledOf (deps : Deps) (trs : topicRequestSender) (peerList : List PeerID)
    (maxToSend : Int) (tr : Trace) : List Int :=
  deps.FisherYatesShuffle (tr ++ [Event.GetTopRatedPeersFromList peerList maxToSend])
    (createIndexList (topRatedOf trs peerList maxToSend tr).length) trs.randomizer

/-- The sequence walked by the loop in a call of `sendOnTopic` that starts at trace `tr`
and passes the guard. -/
def walkedOf (deps : Deps) (trs : topicRequestSender) (peerList : List PeerID)
    (preferredPeer : PeerID) (maxToSend : Int) (tr : Trace) : List Int :=
  walkedIndexes deps preferredPeer maxToSend (shuffledOf deps trs peerList maxToSend tr)

/-- The contract of the library shuffle: the result is a permutation of its input. -/
def ShuffleContract (deps : Deps) : Prop :=
  ∀ (tr : Trace) (l : List Int) (r : IntRandomizer), List.Perm (deps.FisherYatesShuffle tr l r) l

/-- The contract of `Intn`: for a positive bound the result lies in `[0, n)`. -/
def IntnContract (r : IntRandomizer) : Prop :=
  ∀ (tr : Trace) (n : Int), 0 < n → 0 ≤ r.Intn tr n ∧ r.Intn tr n < n

/-! ## Concrete collaborators used to evaluate the code -/

/-- A shuffle that moves the last index to the front: `[0, 1, 2]` becomes `[2, 0, 1]`. -/
def rotateShuffle (l : List Int) : List Int :=
  match l.reverse with
  | [] => []
  | x :: t => x :: t.reverse

/-- A preferred-peers holder with no entry for any shard. -/
def noPreferred : PreferredPeersHolderHandler :=
  { IsInterfaceNil := false, Get := fun _ _ => none }

/-- Constants and library functions for the examples: minimum 2, preferred token -1. -/
def sampleDeps : Deps :=
  { minPeersToQuery := 2
    preferredPeerIndex := -1
    topicRequestSuffix := "_REQUEST"
    checkBaseTopicSenderArgs := fun _ => none
    createBaseTopicSender := fun a =>
      { sendToConnectedPeer := a.Messenger
        preferredPeersHolderHandler := a.PreferredPeersHolder
        targetShardId := a.TargetShardId }
    FisherYatesShuffle := fun _ l _ => rotateShuffle l
    Pretty := fun p => p
    CrossShardPeerString := "cross shard"
    IntraShardPeerString := "intra shard"
    FullHistoryPeerString := "full history" }

/-- A sender for topic "tx" whose rating handler keeps the first `n` candidates, whose
sends succeed exactly for the peers accepted by `accepts`, and whose peer lists, epoch
answer and quotas are given. -/
def sampleSender (accepts : PeerID → Bool) (active : Bool)
    (cross intra full : List PeerID) (numIntra numCross numFull : Int) : topicRequestSender :=
  { baseTopicSender :=
      { sendToConnectedPeer := fun _ _ _ p =>
          if accepts p then none else some (GoError.external "send failed")
        preferredPeersHolderHandler := noPreferred
        targetShardId := 1 }
    marshaller := { IsInterfaceNil := false, Marshal := fun _ rd => Except.ok rd.Value }
    topicName := "tx"
    peerListCreator :=
      { IsInterfaceNil := false
        CrossShardPeerList := fun _ => cross
        IntraShardPeerList := fun _ => intra
        FullHistoryList := fun _ => full }
    randomizer := { IsInterfaceNil := false, Intn := fun _ _ => 0 }
    numIntraShardPeers := numIntra
    numCrossShardPeers := numCross
    numFullHistoryPeers := numFull
    currentNetworkEpochProviderHandler :=
      { IsInterfaceNil := false, EpochIsActiveInNetwork := fun _ _ => active }
    peersRatingHandler :=
      { IsInterfaceNil := false
        GetTopRatedPeersFromList := fun _ peers n => peers.take n.toNat }
    selfShardId := 0 }

/-- A marshaller whose `Marshal` always fails. -/
def failingMarshaller : Marshalizer :=
  { IsInterfaceNil := false, Marshal := fun _ _ => Except.error (GoError.external "marshal failed") }

/-- Construction arguments for topic "tx" with the given quotas; the flag makes the
randomizer a nil interface. -/
def sampleArgs (numIntra numCross numFull : Int) (randomizerNil : Bool) : ArgTopicRequestSender :=
  { ArgBaseTopicSender :=
      { TopicName := "tx", TargetShardId := 1, PreferredPeersHolder := noPreferred
        Messenger := fun _ _ _ _ => none }
    Marshaller := { IsInterfaceNil := false, Marshal := fun _ rd => Except.ok rd.Value }
    Randomizer := { IsInterfaceNil := randomizerNil, Intn := fun _ _ => 0 }
    PeerListCreator :=
      { IsInterfaceNil := false
        CrossShardPeerList := fun _ => []
        IntraShardPeerList := fun _ => []
        FullHistoryList := fun _ => [] }
    NumIntraShardPeers := numIntra
    NumCrossShardPeers := numCross
    NumFullHistoryPeers := numFull
    CurrentNetworkEpochProvider :=
      { IsInterfaceNil := false, EpochIsActiveInNetwork := fun _ _ => true }
    SelfShardIdProvider := { IsInterfaceNil := false, SelfId := fun _ => 0 }
    PeersRatingHandler :=
      { IsInterfaceNil := false
        GetTopRatedPeersFromList := fun _ peers n => peers.take n.toNat } }

/-- A sender like `sampleSender` (topic "tx", sends failing exactly for the peers refused by
`accepts`) whose preferred-peers holder maps shard 1 to [P, Q] and shard 2 to the empty
list, with no entry for any other shard, and whose `Intn` always answers `idx`. -/
def samplePreferredSender (accepts : PeerID → Bool) (idx : Int) : topicRequestSender :=
  { sampleSender accepts true [] [] [] 2 3 0 with
    baseTopicSender :=
      { sendToConnectedPeer := fun _ _ _ p =>
          if accepts p then none else some (GoError.external "send failed")
        preferredPeersHolderHandler :=
          { IsInterfaceNil := false
            Get := fun _ shard =>
              if shard = 1 then some ["P", "Q"] else if shard = 2 then some [] else none }
        targetShardId := 1 }
    randomizer := { IsInterfaceNil := false, Intn := fun _ _ => idx } }

/-! ## Theorems -/

/-! ### Auxiliary facts -/

theorem sendAttempts_append (a b : Trace) :
    sendAttempts (a ++ b) = sendAttempts a ++ sendAttempts b := by
  induction a with
  | nil => rfl
  | cons e rest ih => cases e <;> simp [sendAttempts, ih]

theorem targetOf_def (deps : Deps) (peersList : List PeerID) (preferredPeer : PeerID)
    (index : Int) :
    targetOf deps peersList preferredPeer index
      = if index = deps.preferredPeerIndex then some preferredPeer
        else if index < 0 then none
        else peersList[index.toNat]? := by
  unfold targetOf getPeerID
  by_cases h1 : index = deps.preferredPeerIndex
  · rw [if_pos h1, if_pos h1]
    rfl
  · rw [if_neg h1, if_neg h1]
    by_cases h2 : index < 0
    · rw [if_pos h2, if_pos h2]
      rfl
    · rw [if_neg h2, if_neg h2]
      cases peersList[index.toNat]? <;> rfl

theorem getPeerID_of_valid (deps : Deps) (index : Int) (peersList : List PeerID)
    (preferredPeer : PeerID) (peerType topic : String) (hist : Histogram) (tr : Trace)
    (hv : index = deps.preferredPeerIndex ∨ (0 ≤ index ∧ index < peersList.length)) :
    ∃ peer h pre, getPeerID deps index peersList preferredPeer peerType topic hist tr
        = some (peer, h, tr ++ pre) ∧
      targetOf deps peersList preferredPeer index = some peer ∧ sendAttempts pre = [] := by
  rw [targetOf_def]
  unfold getPeerID
  by_cases h1 : index = deps.preferredPeerIndex
  · exact ⟨preferredPeer, histIncr hist "preferred",
      [Event.traceSendingToPreferred (deps.Pretty preferredPeer) topic peerType],
      by simp [h1], by simp [h1], rfl⟩
  · rcases hv with hv | ⟨h0, hlt⟩
    · exact absurd hv h1
    · have hlt2 : index.toNat < peersList.length := by omega
      have hget : peersList[index.toNat]? = some (peersList[index.toNat]) :=
        List.getElem?_eq_getElem hlt2
      refine ⟨peersList[index.toNat], histIncr hist peerType, [], ?_, ?_, rfl⟩
      · simp [h1, not_lt.mpr h0, hget]
      · simp [h1, not_lt.mpr h0, hget]

theorem sendLoop_spec (deps : Deps) (trs : topicRequestSender) (ranked : List PeerID)
    (pref : PeerID) (topic : String) (buff : Bytes) (maxToSend : Int) (peerType : String) :
    ∀ (seq : List Int) (st : LoopState), ValidIndexes deps ranked seq →
      st.msgSentCounter ≠ maxToSend →
      ∃ st1 evs, sendLoop deps trs ranked pref topic buff maxToSend peerType seq st = some st1 ∧
        st1.trace = st.trace ++ evs ∧
        (sendAttempts evs).map (fun a => some a.1)
          = (seq.take (sendAttempts evs).length).map (targetOf deps ranked pref) ∧
        st1.msgSentCounter
          = st.msgSentCounter + ((sendAttempts evs).countP (fun a => a.2) : Nat) ∧
        ((sendAttempts evs).length = seq.length ∨
          (st1.msgSentCounter = maxToSend ∧ ∃ A0 p, sendAttempts evs = A0 ++ [(p, true)])) ∧
        (∀ j, j < (sendAttempts evs).length →
          st.msgSentCounter + (((sendAttempts evs).take j).countP (fun a => a.2) : Nat)
            ≠ maxToSend) ∧
        ((∀ t p, trs.baseTopicSender.sendToConnectedPeer t topic buff p = none) →
          ∀ a ∈ sendAttempts evs, a.2 = true) := by
  intro seq
  induction seq with
  | nil =>
    intro st _ _
    refine ⟨st, [], by simp [sendLoop], by simp, by simp [sendAttempts], by simp [sendAttempts],
      Or.inl (by simp [sendAttempts]), by simp [sendAttempts], by simp [sendAttempts]⟩
  | cons i rest ih =>
    intro st hv hc
    have hvi := hv i (List.mem_cons_self _ _)
    have hvr : ValidIndexes deps ranked rest := fun k hk => hv k (List.mem_cons_of_mem _ hk)
    obtain ⟨peer, h, pre, hg, ht, hpre⟩ :=
      getPeerID_of_valid deps i ranked pref peerType topic st.histogramMap st.trace hvi
    cases herr : trs.baseTopicSender.sendToConnectedPeer (st.trace ++ pre) topic buff peer with
    | some e =>
      obtain ⟨st1, evs, hs, htr, ha, hcnt, hend, hbefore, hall⟩ :=
        ih { msgSentCounter := st.msgSentCounter, logData := st.logData, histogramMap := h,
             trace := st.trace ++ pre ++
               [Event.sendToConnectedPeer topic buff peer (some e)] } hvr hc
      refine ⟨st1, pre ++ [Event.sendToConnectedPeer topic buff peer (some e)] ++ evs,
        ?_, ?_, ?_, ?_, ?_, ?_, ?_⟩
      · simp only [sendLoop, hg, herr]; exact hs
      · simp [htr]
      · simp [sendAttempts_append, hpre, sendAttempts, ha, ht]
      · simp [sendAttempts_append, hpre, sendAttempts, hcnt]
      · rcases hend with hl | ⟨hm, A0, p, hA⟩
        · left; simp [sendAttempts_append, hpre, sendAttempts, hl]
        · right
          refine ⟨hm, (peer, false) :: A0, p, ?_⟩
          simp [sendAttempts_append, hpre, sendAttempts, hA]
      · intro j hj
        simp only [sendAttempts_append, hpre, sendAttempts, List.nil_append, List.cons_append,
          List.length_cons, Option.isNone_some] at hj ⊢
        cases j with
        | zero => simpa using hc
        | succ k =>
          have := hbefore k (by simpa using hj)
          simpa using this
      · intro hok
        rw [hok] at herr
        cases herr
    | none =>
      by_cases hmax : st.msgSentCounter + 1 = maxToSend
      · refine ⟨{ msgSentCounter := st.msgSentCounter + 1,
                  logData := st.logData ++ [peerType, deps.Pretty peer],
                  histogramMap := h,
                  trace := st.trace ++ pre ++ [Event.sendToConnectedPeer topic buff peer none] },
          pre ++ [Event.sendToConnectedPeer topic buff peer none], ?_, ?_, ?_, ?_, ?_, ?_, ?_⟩
        · simp only [sendLoop, hg, herr]; simp [hmax]
        · simp
        · simp [sendAttempts_append, hpre, sendAttempts, ht]
        · simp [sendAttempts_append, hpre, sendAttempts]
        · right
          exact ⟨hmax, [], peer, by simp [sendAttempts_append, hpre, sendAttempts]⟩
        · intro j hj
          simp only [sendAttempts_append, hpre, sendAttempts, List.nil_append,
            List.length_cons, List.length_nil] at hj ⊢
          have hj0 : j = 0 := by omega
          subst hj0
          simpa using hc
        · intro _ a ha
          simp [sendAttempts_append, hpre, sendAttempts] at ha
          simp [ha]
      · obtain ⟨st1, evs, hs, htr, ha, hcnt, hend, hbefore, hall⟩ :=
          ih { msgSentCounter := st.msgSentCounter + 1,
               logData := st.logData ++ [peerType, deps.Pretty peer], histogramMap := h,
               trace := st.trace ++ pre ++
                 [Event.sendToConnectedPeer topic buff peer none] } hvr hmax
        refine ⟨st1, pre ++ [Event.sendToConnectedPeer topic buff peer none] ++ evs,
          ?_, ?_, ?_, ?_, ?_, ?_, ?_⟩
        · simp only [sendLoop, hg, herr]; simp only [hmax, if_false]; exact hs
        · simp [htr]
        · simp [sendAttempts_append, hpre, sendAttempts, ha, ht]
        · simp [sendAttempts_append, hpre, sendAttempts, hcnt]; ring
        · rcases hend with hl | ⟨hm, A0, p, hA⟩
          · left; simp [sendAttempts_append, hpre, sendAttempts, hl]
          · right
            refine ⟨hm, (peer, true) :: A0, p, ?_⟩
            simp [sendAttempts_append, hpre, sendAttempts, hA]
        · intro j hj
          simp only [sendAttempts_append, hpre, sendAttempts, List.nil_append, List.cons_append,
            List.length_cons, Option.isNone_none] at hj ⊢
          cases j with
          | zero => simpa using hc
          | succ k =>
            have := hbefore k (by simpa using hj)
            simp at this ⊢
            intro hcontra
            apply this
            rw [← hcontra]; ring
        · intro hok a ha
          simp only [sendAttempts_append, hpre, sendAttempts, List.nil_append, List.cons_append,
            List.mem_cons, Option.isNone_none] at ha
          rcases ha with ha | ha
          · simp [ha]
          · exact hall hok a ha

theorem rotateShuffle_perm (l : List Int) : List.Perm (rotateShuffle l) l := by
  unfold rotateShuffle
  cases h : l.reverse with
  | nil => simp at h; simp [h]
  | cons x t =>
    have h1 : l = t.reverse ++ [x] := by
      have := congrArg List.reverse h
      simpa using this
    rw [h1]
    simp only
    exact @List.perm_append_comm Int [x] t.reverse

theorem sampleDeps_shuffle : ShuffleContract sampleDeps :=
  fun _ l _ => rotateShuffle_perm l

theorem mem_createIndexList (n : Nat) (i : Int) :
    i ∈ createIndexList n ↔ 0 ≤ i ∧ i < n := by
  unfold createIndexList
  simp only [List.mem_map, List.mem_range]
  constructor
  · rintro ⟨k, hk, rfl⟩
    simp only [Int.ofNat_eq_coe]
    omega
  · rintro ⟨h0, hlt⟩
    exact ⟨i.toNat, by omega, by simp only [Int.ofNat_eq_coe]; omega⟩

theorem length_createIndexList (n : Nat) : (createIndexList n).length = n := by
  simp [createIndexList]

theorem validIndexes_walked (deps : Deps) (hsh : ShuffleContract deps) (ranked : List PeerID)
    (pref : PeerID) (maxToSend : Int) (tr : Trace) (r : IntRandomizer) :
    ValidIndexes deps ranked (walkedIndexes deps pref maxToSend
      (deps.FisherYatesShuffle tr (createIndexList ranked.length) r)) := by
  intro i hi
  have hperm := hsh tr (createIndexList ranked.length) r
  unfold walkedIndexes at hi
  split at hi
  · rcases List.mem_cons.mp hi with h | h
    · exact Or.inl h
    · exact Or.inr ((mem_createIndexList _ _).mp (hperm.mem_iff.mp h))
  · exact Or.inr ((mem_createIndexList _ _).mp (hperm.mem_iff.mp hi))

theorem sendLoop_le (deps : Deps) (trs : topicRequestSender) (ranked : List PeerID)
    (pref : PeerID) (topic : String) (buff : Bytes) (maxToSend : Int) (peerType : String) :
    ∀ (seq : List Int) (st st1 : LoopState),
      sendLoop deps trs ranked pref topic buff maxToSend peerType seq st = some st1 →
      st.msgSentCounter < maxToSend → st1.msgSentCounter ≤ maxToSend := by
  intro seq
  induction seq with
  | nil =>
    intro st st1 h hlt
    simp [sendLoop] at h
    subst h
    exact le_of_lt hlt
  | cons i rest ih =>
    intro st st1 h hlt
    simp only [sendLoop] at h
    cases hg : getPeerID deps i ranked pref peerType topic st.histogramMap st.trace with
    | none => simp [hg] at h
    | some res =>
      obtain ⟨peer, hist, tr⟩ := res
      simp only [hg] at h
      cases herr : trs.baseTopicSender.sendToConnectedPeer tr topic buff peer with
      | some e =>
        simp only [herr] at h
        exact ih _ _ h hlt
      | none =>
        simp only [herr] at h
        by_cases hmax : st.msgSentCounter + 1 = maxToSend
        · simp only [hmax, if_true] at h
          cases h
          exact le_refl _
        · simp only [hmax, if_false] at h
          exact ih _ _ h (by simp only; omega)

theorem histGet_histIncr_ne (h : Histogram) (key k : String) (hne : key ≠ k) :
    histGet (histIncr h key) k = histGet h k := by
  induction h with
  | nil => simp [histIncr, histGet, hne]
  | cons p rest ih =>
    obtain ⟨a, v⟩ := p
    by_cases hak : a = key
    · subst hak
      simp [histIncr, histGet, hne]
    · by_cases hk : a = k
      · subst hk
        simp [histIncr, histGet, hak]
      · simp [histIncr, histGet, hak, hk, ih]

theorem sendLoop_no_token (deps : Deps) (trs : topicRequestSender) (ranked : List PeerID)
    (pref : PeerID) (topic : String) (buff : Bytes) (maxToSend : Int) (peerType : String) :
    ∀ (seq : List Int) (st st1 : LoopState), deps.preferredPeerIndex ∉ seq →
      sendLoop deps trs ranked pref topic buff maxToSend peerType seq st = some st1 →
      (∃ evs, st1.trace = st.trace ++ evs ∧
        ∀ e ∈ evs, ∃ p err, e = Event.sendToConnectedPeer topic buff p err) ∧
      (peerType ≠ "preferred" →
        histGet st1.histogramMap "preferred" = histGet st.histogramMap "preferred") := by
  intro seq
  induction seq with
  | nil =>
    intro st st1 _ h
    simp [sendLoop] at h
    subst h
    exact ⟨⟨[], by simp, by simp⟩, fun _ => rfl⟩
  | cons i rest ih =>
    intro st st1 hnot h
    have hi : i ≠ deps.preferredPeerIndex := fun hc => hnot (hc ▸ List.mem_cons_self _ _)
    have hrest : deps.preferredPeerIndex ∉ rest := fun hc => hnot (List.mem_cons_of_mem _ hc)
    simp only [sendLoop] at h
    cases hg : getPeerID deps i ranked pref peerType topic st.histogramMap st.trace with
    | none => simp [hg] at h
    | some res =>
      obtain ⟨peer, hist, tr⟩ := res
      simp only [hg] at h
      have hres : hist = histIncr st.histogramMap peerType ∧ tr = st.trace := by
        unfold getPeerID at hg
        simp only [hi, if_false] at hg
        split at hg
        · cases hg
        · split at hg
          · cases hg
          · cases hg
            exact ⟨rfl, rfl⟩
      obtain ⟨hh, htr⟩ := hres
      subst hh htr
      cases herr : trs.baseTopicSender.sendToConnectedPeer st.trace topic buff peer with
      | some e =>
        simp only [herr] at h
        obtain ⟨⟨evs, he, hall⟩, hhist⟩ := ih _ _ hrest h
        refine ⟨⟨Event.sendToConnectedPeer topic buff peer (some e) :: evs, by simp [he], ?_⟩, ?_⟩
        · intro ev hev
          rcases List.mem_cons.mp hev with hev | hev
          · exact ⟨peer, some e, hev⟩
          · exact hall ev hev
        · intro hpt
          rw [hhist hpt]
          exact histGet_histIncr_ne _ _ _ hpt
      | none =>
        simp only [herr] at h
        by_cases hmax : st.msgSentCounter + 1 = maxToSend
        · simp only [hmax, if_true] at h
          cases h
          refine ⟨⟨[Event.sendToConnectedPeer topic buff peer none], by simp, ?_⟩, ?_⟩
          · intro ev hev
            exact ⟨peer, none, by simpa using hev⟩
          · intro hpt
            exact histGet_histIncr_ne _ _ _ hpt
        · simp only [hmax, if_false] at h
          obtain ⟨⟨evs, he, hall⟩, hhist⟩ := ih _ _ hrest h
          refine ⟨⟨Event.sendToConnectedPeer topic buff peer none :: evs, by simp [he], ?_⟩, ?_⟩
          · intro ev hev
            rcases List.mem_cons.mp hev with hev | hev
            · exact ⟨peer, none, hev⟩
            · exact hall ev hev
          · intro hpt
            rw [hhist hpt]
            exact histGet_histIncr_ne _ _ _ hpt

theorem addInt_exact (a b : Int) (h : IsInt64 (a + b) = true) : addInt a b = a + b := by
  unfold IsInt64 at h
  have h1 := of_decide_eq_true h
  unfold addInt wrapInt
  omega

theorem sendOnTopic_of_guard (deps : Deps) (trs : topicRequestSender) (peerList : List PeerID)
    (pref : PeerID) (topic : String) (buff : Bytes) (maxToSend : Int)
    (peerType : String) (tr : Trace) (h : peerList.length = 0 ∨ maxToSend = 0) :
    sendOnTopic deps trs peerList pref topic buff maxToSend peerType tr = some (0, tr) := by
  unfold sendOnTopic
  rw [if_pos h]

/-! ### Construction -/

/-- C4: `checkArgs` returns nil exactly when the base-sender arguments are valid, every
collaborator is non-nil, the three quotas are non-negative and the Go sum
`NumCrossShardPeers + NumIntraShardPeers` is at least `minPeersToQuery` (the Go sum is the
exact sum whenever that fits a 64-bit int).  With valid base arguments the error otherwise
returned is the nil-collaborator error of the first nil collaborator, or `ErrInvalidValue`
wrapped with the name of the first violated quota in the order intra, cross, full-history,
sum.  `NewTopicRequestSender` returns that same error and no sender, and returns a sender
holding the given quotas when `checkArgs` returns nil. -/
theorem checkArgs_succeeds_iff (deps : Deps) (args : ArgTopicRequestSender) :
    (checkArgs deps args = none ↔
      deps.checkBaseTopicSenderArgs args.ArgBaseTopicSender = none ∧
      args.Marshaller.IsInterfaceNil = false ∧
      args.Randomizer.IsInterfaceNil = false ∧
      args.PeerListCreator.IsInterfaceNil = false ∧
      args.CurrentNetworkEpochProvider.IsInterfaceNil = false ∧
      args.PeersRatingHandler.IsInterfaceNil = false ∧
      args.SelfShardIdProvider.IsInterfaceNil = false ∧
      0 ≤ args.NumIntraShardPeers ∧ 0 ≤ args.NumCrossShardPeers ∧
      0 ≤ args.NumFullHistoryPeers ∧
      deps.minPeersToQuery ≤ addInt args.NumCrossShardPeers args.NumIntraShardPeers) ∧
    (IsInt64 (args.NumCrossShardPeers + args.NumIntraShardPeers) = true →
      addInt args.NumCrossShardPeers args.NumIntraShardPeers
        = args.NumCrossShardPeers + args.NumIntraShardPeers) ∧
    (deps.checkBaseTopicSenderArgs args.ArgBaseTopicSender = none →
      (args.Marshaller.IsInterfaceNil = true →
        checkArgs deps args = some GoError.ErrNilMarshalizer) ∧
      (args.Marshaller.IsInterfaceNil = false → args.Randomizer.IsInterfaceNil = true →
        checkArgs deps args = some GoError.ErrNilRandomizer) ∧
      (args.Marshaller.IsInterfaceNil = false → args.Randomizer.IsInterfaceNil = false →
        args.PeerListCreator.IsInterfaceNil = true →
        checkArgs deps args = some GoError.ErrNilPeerListCreator) ∧
      (args.Marshaller.IsInterfaceNil = false → args.Randomizer.IsInterfaceNil = false →
        args.PeerListCreator.IsInterfaceNil = false →
        args.CurrentNetworkEpochProvider.IsInterfaceNil = true →
        checkArgs deps args = some GoError.ErrNilCurrentNetworkEpochProvider) ∧
      (args.Marshaller.IsInterfaceNil = false → args.Randomizer.IsInterfaceNil = false →
        args.PeerListCreator.IsInterfaceNil = false →
        args.CurrentNetworkEpochProvider.IsInterfaceNil = false →
        args.PeersRatingHandler.IsInterfaceNil = true →
        checkArgs deps args = some GoError.ErrNilPeersRatingHandler) ∧
      (args.Marshaller.IsInterfaceNil = false → args.Randomizer.IsInterfaceNil = false →
        args.PeerListCreator.IsInterfaceNil = false →
        args.CurrentNetworkEpochProvider.IsInterfaceNil = false →
        args.PeersRatingHandler.IsInterfaceNil = false →
        args.SelfShardIdProvider.IsInterfaceNil = true →
        checkArgs deps args = some GoError.ErrNilSelfShardIDProvider) ∧
      (args.Marshaller.IsInterfaceNil = false → args.Randomizer.IsInterfaceNil = false →
        args.PeerListCreator.IsInterfaceNil = false →
        args.CurrentNetworkEpochProvider.IsInterfaceNil = false →
        args.PeersRatingHandler.IsInterfaceNil = false →
        args.SelfShardIdProvider.IsInterfaceNil = false →
        (args.NumIntraShardPeers < 0 →
          checkArgs deps args = some (GoError.wrapf GoError.ErrInvalidValue
            " for NumIntraShardPeers as the value should be greater or equal than 0")) ∧
        (0 ≤ args.NumIntraShardPeers → args.NumCrossShardPeers < 0 →
          checkArgs deps args = some (GoError.wrapf GoError.ErrInvalidValue
            " for NumCrossShardPeers as the value should be greater or equal than 0")) ∧
        (0 ≤ args.NumIntraShardPeers → 0 ≤ args.NumCrossShardPeers →
          args.NumFullHistoryPeers < 0 →
          checkArgs deps args = some (GoError.wrapf GoError.ErrInvalidValue
            " for NumFullHistoryPeers as the value should be greater or equal than 0")) ∧
        (0 ≤ args.NumIntraShardPeers → 0 ≤ args.NumCrossShardPeers →
          0 ≤ args.NumFullHistoryPeers →
          addInt args.NumCrossShardPeers args.NumIntraShardPeers < deps.minPeersToQuery →
          checkArgs deps args = some (GoError.wrapf GoError.ErrInvalidValue
            (" for NumCrossShardPeers, NumIntraShardPeers as their sum should be greater or equal than "
              ++ toString deps.minPeersToQuery))))) ∧
    (∀ tr : Trace,
      (∀ err, checkArgs deps args = some err →
        NewTopicRequestSender deps args tr = (Except.error err, tr)) ∧
      (checkArgs deps args = none →
        ∃ trs, NewTopicRequestSender deps args tr = (Except.ok trs, tr ++ [Event.SelfId]) ∧
          trs.topicName = args.ArgBaseTopicSender.TopicName ∧
          trs.numIntraShardPeers = args.NumIntraShardPeers ∧
          trs.numCrossShardPeers = args.NumCrossShardPeers ∧
          trs.numFullHistoryPeers = args.NumFullHistoryPeers)) := by
  refine ⟨?_, addInt_exact _ _, ?_, ?_⟩
  · unfold checkArgs
    cases hb : deps.checkBaseTopicSenderArgs args.ArgBaseTopicSender with
    | some e =>
      constructor
      · intro h; cases h
      · intro h; cases h.1
    | none =>
      simp only [true_and]
      by_cases h1 : args.Marshaller.IsInterfaceNil = true
      · rw [if_pos h1]
        exact ⟨fun h => Option.noConfusion h, fun h => by rw [h.1] at h1; cases h1⟩
      rw [if_neg h1]
      by_cases h2 : args.Randomizer.IsInterfaceNil = true
      · rw [if_pos h2]
        exact ⟨fun h => Option.noConfusion h, fun h => by rw [h.2.1] at h2; cases h2⟩
      rw [if_neg h2]
      by_cases h3 : args.PeerListCreator.IsInterfaceNil = true
      · rw [if_pos h3]
        exact ⟨fun h => Option.noConfusion h, fun h => by rw [h.2.2.1] at h3; cases h3⟩
      rw [if_neg h3]
      by_cases h4 : args.CurrentNetworkEpochProvider.IsInterfaceNil = true
      · rw [if_pos h4]
        exact ⟨fun h => Option.noConfusion h, fun h => by rw [h.2.2.2.1] at h4; cases h4⟩
      rw [if_neg h4]
      by_cases h5 : args.PeersRatingHandler.IsInterfaceNil = true
      · rw [if_pos h5]
        exact ⟨fun h => Option.noConfusion h, fun h => by rw [h.2.2.2.2.1] at h5; cases h5⟩
      rw [if_neg h5]
      by_cases h6 : args.SelfShardIdProvider.IsInterfaceNil = true
      · rw [if_pos h6]
        exact ⟨fun h => Option.noConfusion h, fun h => by rw [h.2.2.2.2.2.1] at h6; cases h6⟩
      rw [if_neg h6]
      by_cases h7 : args.NumIntraShardPeers < 0
      · rw [if_pos h7]
        exact ⟨fun h => Option.noConfusion h, fun h => absurd h7 (not_lt.mpr h.2.2.2.2.2.2.1)⟩
      rw [if_neg h7]
      by_cases h8 : args.NumCrossShardPeers < 0
      · rw [if_pos h8]
        exact ⟨fun h => Option.noConfusion h, fun h => absurd h8 (not_lt.mpr h.2.2.2.2.2.2.2.1)⟩
      rw [if_neg h8]
      by_cases h9 : args.NumFullHistoryPeers < 0
      · rw [if_pos h9]
        exact ⟨fun h => Option.noConfusion h,
          fun h => absurd h9 (not_lt.mpr h.2.2.2.2.2.2.2.2.1)⟩
      rw [if_neg h9]
      by_cases h10 : addInt args.NumCrossShardPeers args.NumIntraShardPeers < deps.minPeersToQuery
      · rw [if_pos h10]
        exact ⟨fun h => Option.noConfusion h,
          fun h => absurd h10 (not_lt.mpr h.2.2.2.2.2.2.2.2.2)⟩
      rw [if_neg h10]
      exact ⟨fun _ => ⟨Bool.eq_false_iff.mpr h1, Bool.eq_false_iff.mpr h2,
        Bool.eq_false_iff.mpr h3, Bool.eq_false_iff.mpr h4, Bool.eq_false_iff.mpr h5,
        Bool.eq_false_iff.mpr h6, not_lt.mp h7, not_lt.mp h8, not_lt.mp h9, not_lt.mp h10⟩,
        fun _ => rfl⟩
  · intro hb
    unfold checkArgs
    rw [hb]
    refine ⟨?_, ?_, ?_, ?_, ?_, ?_, ?_⟩
    · intro h1
      simp only [h1, if_true]
    · intro h1 h2
      simp only [h1, h2, if_true, Bool.false_eq_true, if_false]
    · intro h1 h2 h3
      simp only [h1, h2, h3, if_true, Bool.false_eq_true, if_false]
    · intro h1 h2 h3 h4
      simp only [h1, h2, h3, h4, if_true, Bool.false_eq_true, if_false]
    · intro h1 h2 h3 h4 h5
      simp only [h1, h2, h3, h4, h5, if_true, Bool.false_eq_true, if_false]
    · intro h1 h2 h3 h4 h5 h6
      simp only [h1, h2, h3, h4, h5, h6, if_true, Bool.false_eq_true, if_false]
    · intro h1 h2 h3 h4 h5 h6
      simp only [h1, h2, h3, h4, h5, h6, Bool.false_eq_true, if_false]
      refine ⟨?_, ?_, ?_, ?_⟩
      · intro a
        rw [if_pos a]
      · intro a b
        rw [if_neg (not_lt.mpr a), if_pos b]
      · intro a b c
        rw [if_neg (not_lt.mpr a), if_neg (not_lt.mpr b), if_pos c]
      · intro a b c d
        rw [if_neg (not_lt.mpr a), if_neg (not_lt.mpr b), if_neg (not_lt.mpr c), if_pos d]
  · intro tr
    constructor
    · intro err h
      unfold NewTopicRequestSender
      rw [h]
    · intro h
      unfold NewTopicRequestSender
      rw [h]
      exact ⟨_, rfl, rfl, rfl, rfl, rfl⟩

/-- C4, at concrete arguments: quotas (1, 1, 0) with every collaborator set are accepted,
and quotas (-1, 5, 0) are rejected with the error naming NumIntraShardPeers. -/
theorem checkArgs_succeeds_iff_witness :
    checkArgs sampleDeps (sampleArgs 1 1 0 false) = none ∧
    checkArgs sampleDeps (sampleArgs (-1) 5 0 false)
      = some (GoError.wrapf GoError.ErrInvalidValue
          " for NumIntraShardPeers as the value should be greater or equal than 0") :=
  ⟨(checkArgs_succeeds_iff sampleDeps (sampleArgs 1 1 0 false)).1.mpr
      ⟨rfl, rfl, rfl, rfl, rfl, rfl, rfl, by decide, by decide, by decide, by decide⟩,
   (((checkArgs_succeeds_iff sampleDeps (sampleArgs (-1) 5 0 false)).2.2.1 rfl).2.2.2.2.2.2
      rfl rfl rfl rfl rfl rfl).1 (by decide)⟩

/-- The sum of `checkArgs` is the Go `int` sum: quotas intra 1 and cross 2^63 - 1 wrap to a
negative sum and are rejected with the error naming the sum. -/
theorem checkArgs_sum_wraps :
    checkArgs sampleDeps (sampleArgs 1 9223372036854775807 0 false)
      = some (GoError.wrapf GoError.ErrInvalidValue
          " for NumCrossShardPeers, NumIntraShardPeers as their sum should be greater or equal than 2") := by
  decide

/-! ### Quota access -/

/-- C8: `SetNumPeersToQuery(a, b)` followed by `NumPeersToQuery()` returns `(a, b)` for all
integers `a` and `b`, without validation, and leaves every other field of the sender
unchanged (full-history quota, topic name, shard ids, collaborators). -/
theorem NumPeersToQuery_SetNumPeersToQuery (trs : topicRequestSender) (a b : Int) :
    NumPeersToQuery (SetNumPeersToQuery trs a b) = (a, b) ∧
    (SetNumPeersToQuery trs a b).numFullHistoryPeers = trs.numFullHistoryPeers ∧
    (SetNumPeersToQuery trs a b).topicName = trs.topicName ∧
    (SetNumPeersToQuery trs a b).selfShardId = trs.selfShardId ∧
    (SetNumPeersToQuery trs a b).baseTopicSender.targetShardId
      = trs.baseTopicSender.targetShardId ∧
    SetNumPeersToQuery trs a b
      = { trs with numIntraShardPeers := a, numCrossShardPeers := b } :=
  ⟨rfl, rfl, rfl, rfl, rfl, rfl⟩

/-! ### Dispatch -/

/-- C5: with `maxToSend == 0` or an empty candidate list, `sendOnTopic` returns 0 and the
trace is unchanged: the rating handler, the randomizer and the per-peer send primitive are
not invoked, whatever the preferred peer is. -/
theorem sendOnTopic_guard (deps : Deps) (trs : topicRequestSender) (peerList : List PeerID)
    (preferredPeer : PeerID) (topicToSendRequest : String) (buff : Bytes) (maxToSend : Int)
    (peerType : String) (tr : Trace) (h : peerList = [] ∨ maxToSend = 0) :
    sendOnTopic deps trs peerList preferredPeer topicToSendRequest buff maxToSend peerType tr
      = some (0, tr) := by
  unfold sendOnTopic
  have h1 : peerList.length = 0 ∨ maxToSend = 0 := by
    rcases h with h | h
    · exact Or.inl (by simp [h])
    · exact Or.inr h
  rw [if_pos h1]

/-- C5, at concrete inputs: candidates [A, B], preferred peer P, quota 0, and an empty
candidate list with quota 3. -/
theorem sendOnTopic_guard_witness :
    ((["A", "B"] : List PeerID) = [] ∨ (0 : Int) = 0) ∧
    sendOnTopic sampleDeps (sampleSender (fun _ => true) true [] [] [] 2 3 0)
      ["A", "B"] "P" "tx_REQUEST" [1] 0 "cross shard" [] = some (0, []) ∧
    (([] : List PeerID) = [] ∨ (3 : Int) = 0) ∧
    sendOnTopic sampleDeps (sampleSender (fun _ => true) true [] [] [] 2 3 0)
      [] "P" "tx_REQUEST" [1] 3 "cross shard" [] = some (0, []) :=
  ⟨Or.inr rfl,
   sendOnTopic_guard sampleDeps (sampleSender (fun _ => true) true [] [] [] 2 3 0)
      ["A", "B"] "P" "tx_REQUEST" [1] 0 "cross shard" [] (Or.inr rfl),
   Or.inl rfl,
   sendOnTopic_guard sampleDeps (sampleSender (fun _ => true) true [] [] [] 2 3 0)
      [] "P" "tx_REQUEST" [1] 3 "cross shard" [] (Or.inl rfl)⟩

/-- C7: when marshalling the request fails, `SendOnRequestTopic` returns that error and the
only interaction is the `Marshal` call itself: no epoch query, no peer list, no per-peer
send, no debug-handler call. -/
theorem SendOnRequestTopic_marshal_error (deps : Deps) (trs : topicRequestSender)
    (rd : RequestData) (originalHashes : List Bytes) (tr : Trace) (err : GoError)
    (h : trs.marshaller.Marshal tr rd = Except.error err) :
    SendOnRequestTopic deps trs rd originalHashes tr = some (some err, tr ++ [Event.Marshal rd]) := by
  unfold SendOnRequestTopic
  simp only [h]

/-- C7, at a concrete sender whose marshaller fails. -/
theorem SendOnRequestTopic_marshal_error_witness :
    failingMarshaller.Marshal [] ⟨[7], 5⟩ = Except.error (GoError.external "marshal failed") ∧
    SendOnRequestTopic sampleDeps
      { sampleSender (fun _ => true) true ["A"] ["B"] [] 2 3 0 with
        marshaller := failingMarshaller }
      ⟨[7], 5⟩ [[9]] []
      = some (some (GoError.external "marshal failed"), [Event.Marshal ⟨[7], 5⟩]) :=
  ⟨rfl,
   SendOnRequestTopic_marshal_error sampleDeps
      { sampleSender (fun _ => true) true ["A"] ["B"] [] 2 3 0 with
        marshaller := failingMarshaller }
      ⟨[7], 5⟩ [[9]] [] (GoError.external "marshal failed") rfl⟩

theorem sendOnTopic_spec (deps : Deps) (trs : topicRequestSender) (peerList : List PeerID)
    (pref : PeerID) (topic : String) (buff : Bytes) (maxToSend : Int) (peerType : String)
    (tr : Trace) (hne : peerList ≠ []) (hmax : maxToSend ≠ 0) (hsh : ShuffleContract deps) :
    ∃ st evs,
      sendLoop deps trs (topRatedOf trs peerList maxToSend tr) pref topic buff maxToSend peerType
        (walkedOf deps trs peerList pref maxToSend tr)
        { msgSentCounter := 0, logData := [], histogramMap := [],
          trace := tr ++ [Event.GetTopRatedPeersFromList peerList maxToSend] ++
            [Event.FisherYatesShuffle
              (createIndexList (topRatedOf trs peerList maxToSend tr).length)] } = some st ∧
      st.trace = tr ++ [Event.GetTopRatedPeersFromList peerList maxToSend] ++
            [Event.FisherYatesShuffle
              (createIndexList (topRatedOf trs peerList maxToSend tr).length)] ++ evs ∧
      sendOnTopic deps trs peerList pref topic buff maxToSend peerType tr
        = some (st.msgSentCounter,
            tr ++ ([Event.GetTopRatedPeersFromList peerList maxToSend,
              Event.FisherYatesShuffle
                (createIndexList (topRatedOf trs peerList maxToSend tr).length)] ++ evs ++
              [Event.traceRequestsSent st.logData,
               Event.traceHistogram maxToSend topic st.histogramMap])) ∧
      sendAttempts ([Event.GetTopRatedPeersFromList peerList maxToSend,
              Event.FisherYatesShuffle
                (createIndexList (topRatedOf trs peerList maxToSend tr).length)] ++ evs ++
              [Event.traceRequestsSent st.logData,
               Event.traceHistogram maxToSend topic st.histogramMap]) = sendAttempts evs ∧
      (sendAttempts evs).map (fun a => some a.1)
        = ((walkedOf deps trs peerList pref maxToSend tr).take (sendAttempts evs).length).map
            (targetOf deps (topRatedOf trs peerList maxToSend tr) pref) ∧
      st.msgSentCounter = ((sendAttempts evs).countP (fun a => a.2) : Nat) ∧
      ((sendAttempts evs).length = (walkedOf deps trs peerList pref maxToSend tr).length ∨
        (st.msgSentCounter = maxToSend ∧ ∃ A0 p, sendAttempts evs = A0 ++ [(p, true)])) ∧
      (∀ j, j < (sendAttempts evs).length →
        ((((sendAttempts evs).take j).countP (fun a => a.2) : Nat) : Int) ≠ maxToSend) ∧
      ((∀ t p, trs.baseTopicSender.sendToConnectedPeer t topic buff p = none) →
        ∀ a ∈ sendAttempts evs, a.2 = true) := by
  have hvalid : ValidIndexes deps (topRatedOf trs peerList maxToSend tr)
      (walkedOf deps trs peerList pref maxToSend tr) :=
    validIndexes_walked deps hsh _ pref maxToSend _ trs.randomizer
  obtain ⟨st, evs, hs, htr, ha, hcnt, hend, hbefore, hall⟩ :=
    sendLoop_spec deps trs (topRatedOf trs peerList maxToSend tr) pref topic buff maxToSend
      peerType (walkedOf deps trs peerList pref maxToSend tr)
      { msgSentCounter := 0, logData := [], histogramMap := [],
        trace := tr ++ [Event.GetTopRatedPeersFromList peerList maxToSend] ++
          [Event.FisherYatesShuffle
            (createIndexList (topRatedOf trs peerList maxToSend tr).length)] }
      hvalid (fun h => hmax h.symm)
  refine ⟨st, evs, hs, htr, ?_, ?_, ha, ?_, hend, ?_, hall⟩
  · have hguard : ¬ (peerList.length = 0 ∨ maxToSend = 0) := by
      intro h
      rcases h with h | h
      · exact hne (List.length_eq_zero.mp h)
      · exact hmax h
    unfold sendOnTopic
    rw [if_neg hguard]
    unfold walkedOf shuffledOf topRatedOf at hs
    simp only [hs]
    unfold topRatedOf at htr
    simp only [htr, List.append_assoc, List.cons_append, List.nil_append, topRatedOf]
  · simp [sendAttempts_append, sendAttempts]
  · simpa using hcnt
  · intro j hj
    simpa using hbefore j hj

/-- C10: in a call of `sendOnTopic` that passes the guard, the send attempts are, in
order and once each, the targets of an initial segment of the walked sequence; the returned
count is the number of attempts that succeeded (a failed send adds nothing and the walk goes
on); the walk stops only when the sequence is exhausted or right after the success that
brings the count to `maxToSend`; and the count was never `maxToSend` before an attempt. -/
theorem sendOnTopic_walk (deps : Deps) (trs : topicRequestSender) (peerList : List PeerID)
    (preferredPeer : PeerID) (topicToSendRequest : String) (buff : Bytes) (maxToSend : Int)
    (peerType : String) (tr : Trace)
    (hne : peerList ≠ []) (hmax : maxToSend ≠ 0) (hsh : ShuffleContract deps) :
    ∃ n new,
      sendOnTopic deps trs peerList preferredPeer topicToSendRequest buff maxToSend peerType tr
        = some (n, tr ++ new) ∧
      (sendAttempts new).map (fun a => some a.1)
        = ((walkedOf deps trs peerList preferredPeer maxToSend tr).take
            (sendAttempts new).length).map
            (targetOf deps (topRatedOf trs peerList maxToSend tr) preferredPeer) ∧
      n = ((sendAttempts new).countP (fun a => a.2) : Nat) ∧
      ((sendAttempts new).length = (walkedOf deps trs peerList preferredPeer maxToSend tr).length ∨
        (n = maxToSend ∧ ∃ A0 p, sendAttempts new = A0 ++ [(p, true)])) ∧
      (∀ j, j < (sendAttempts new).length →
        ((((sendAttempts new).take j).countP (fun a => a.2) : Nat) : Int) ≠ maxToSend) := by
  obtain ⟨st, evs, _, _, hres, hsa, ha, hcnt, hend, hbefore, _⟩ :=
    sendOnTopic_spec deps trs peerList preferredPeer topicToSendRequest buff maxToSend peerType
      tr hne hmax hsh
  refine ⟨st.msgSentCounter, _, hres, ?_, ?_, ?_, ?_⟩
  · rw [hsa]; exact ha
  · rw [hsa]; exact hcnt
  · rw [hsa]; exact hend
  · rw [hsa]; exact hbefore

/-- C10, at concrete inputs: candidates [A, B, C, D], quota 3, the send to B failing. -/
theorem sendOnTopic_walk_witness :
    ((["A", "B", "C", "D"] : List PeerID) ≠ [] ∧ (3 : Int) ≠ 0 ∧ ShuffleContract sampleDeps) ∧
    ∃ n new,
      sendOnTopic sampleDeps (sampleSender (fun p => p != "B") true [] [] [] 2 3 0)
        ["A", "B", "C", "D"] "" "tx_REQUEST" [1] 3 "cross shard" [] = some (n, [] ++ new) ∧
      (sendAttempts new).map (fun a => some a.1)
        = ((walkedOf sampleDeps (sampleSender (fun p => p != "B") true [] [] [] 2 3 0)
            ["A", "B", "C", "D"] "" 3 []).take (sendAttempts new).length).map
            (targetOf sampleDeps
              (topRatedOf (sampleSender (fun p => p != "B") true [] [] [] 2 3 0)
                ["A", "B", "C", "D"] 3 []) "") ∧
      n = ((sendAttempts new).countP (fun a => a.2) : Nat) ∧
      ((sendAttempts new).length
          = (walkedOf sampleDeps (sampleSender (fun p => p != "B") true [] [] [] 2 3 0)
              ["A", "B", "C", "D"] "" 3 []).length ∨
        (n = 3 ∧ ∃ A0 p, sendAttempts new = A0 ++ [(p, true)])) ∧
      (∀ j, j < (sendAttempts new).length →
        ((((sendAttempts new).take j).countP (fun a => a.2) : Nat) : Int) ≠ 3) :=
  ⟨⟨by decide, by decide, sampleDeps_shuffle⟩,
   sendOnTopic_walk sampleDeps (sampleSender (fun p => p != "B") true [] [] [] 2 3 0)
      ["A", "B", "C", "D"] "" "tx_REQUEST" [1] 3 "cross shard" []
      (by decide) (by decide) sampleDeps_shuffle⟩

/-- C2 (as stated, refuted): candidates [A], quota 2, preferred peer P, a rating handler
that returns [A] (at most min(2, 1) peers) and sends that all succeed: `sendOnTopic`
returns 2, which exceeds the length 1 of the candidate list. -/
theorem sendOnTopic_count_exceeds_candidates :
    ((["A"] : List PeerID) ≠ [] ∧ (1 : Int) ≤ 2 ∧
      (((sampleSender (fun _ => true) true [] [] [] 2 3 0).peersRatingHandler.GetTopRatedPeersFromList
          [] ["A"] 2).length : Int) ≤ min 2 ((["A"] : List PeerID).length : Int)) ∧
    sendOnTopic sampleDeps (sampleSender (fun _ => true) true [] [] [] 2 3 0)
      ["A"] "P" "tx_REQUEST" [1] 2 "cross shard" []
      = some (2,
          [Event.GetTopRatedPeersFromList ["A"] 2,
           Event.FisherYatesShuffle [0],
           Event.traceSendingToPreferred "P" "tx_REQUEST" "cross shard",
           Event.sendToConnectedPeer "tx_REQUEST" [1] "P" none,
           Event.sendToConnectedPeer "tx_REQUEST" [1] "A" none,
           Event.traceRequestsSent ["cross shard", "P", "cross shard", "A"],
           Event.traceHistogram 2 "tx_REQUEST" [("preferred", 1), ("cross shard", 1)]]) ∧
    ¬ ((2 : Int) ≤ ((["A"] : List PeerID).length : Int)) := by
  refine ⟨⟨by decide, by decide, by decide⟩, by decide, by decide⟩

theorem length_walkedOf_le (deps : Deps) (trs : topicRequestSender) (peerList : List PeerID)
    (pref : PeerID) (maxToSend : Int) (tr : Trace) (hsh : ShuffleContract deps) :
    (walkedOf deps trs peerList pref maxToSend tr).length
        ≤ (topRatedOf trs peerList maxToSend tr).length + 1 ∧
      ((pref = "" ∨ maxToSend = 1) →
        (walkedOf deps trs peerList pref maxToSend tr).length
          = (topRatedOf trs peerList maxToSend tr).length) := by
  have hlen : (shuffledOf deps trs peerList maxToSend tr).length
      = (topRatedOf trs peerList maxToSend tr).length := by
    unfold shuffledOf
    rw [(hsh _ _ _).length_eq, length_createIndexList]
  unfold walkedOf walkedIndexes
  constructor
  · split
    · simp [hlen]
    · simp [hlen]
  · intro h
    have hcond : ¬ (pref ≠ "" ∧ maxToSend > 1) := by
      rintro ⟨h1, h2⟩
      rcases h with h | h
      · exact h1 h
      · omega
    rw [if_neg hcond]
    exact hlen

theorem length_sendAttempts_le (A : List (PeerID × Bool)) (seq : List Int)
    (f : Int → Option PeerID)
    (h : A.map (fun a => some a.1) = (seq.take A.length).map f) : A.length ≤ seq.length := by
  have h1 := congrArg List.length h
  simp only [List.length_map, List.length_take] at h1
  omega

/-- C2 (amended): for a non-empty candidate list, `maxToSend >= 1`, a shuffle that permutes
and a rating handler returning at most min(maxToSend, len(list)) peers, `sendOnTopic`
returns a count that is at most `maxToSend` and at most len(list) + 1; it is at most
len(list) when no preferred token is put in front (preferred peer empty, or
`maxToSend == 1`). -/
theorem sendOnTopic_count_le (deps : Deps) (trs : topicRequestSender) (peerList : List PeerID)
    (preferredPeer : PeerID) (topicToSendRequest : String) (buff : Bytes) (maxToSend : Int)
    (peerType : String) (tr : Trace)
    (hne : peerList ≠ []) (hmax : 1 ≤ maxToSend) (hsh : ShuffleContract deps)
    (hrate : ((trs.peersRatingHandler.GetTopRatedPeersFromList tr peerList maxToSend).length : Int)
      ≤ min maxToSend (peerList.length : Int)) :
    ∃ n tr1,
      sendOnTopic deps trs peerList preferredPeer topicToSendRequest buff maxToSend peerType tr
        = some (n, tr1) ∧
      0 ≤ n ∧ n ≤ maxToSend ∧ n ≤ (peerList.length : Int) + 1 ∧
      ((preferredPeer = "" ∨ maxToSend = 1) → n ≤ (peerList.length : Int)) := by
  obtain ⟨st, evs, hloop, _, hres, _, ha, hcnt, _, _, _⟩ :=
    sendOnTopic_spec deps trs peerList preferredPeer topicToSendRequest buff maxToSend peerType
      tr hne (by omega) hsh
  have hle := sendLoop_le deps trs _ preferredPeer topicToSendRequest buff maxToSend peerType
    _ _ st hloop (by simp only; omega)
  have h1 : (sendAttempts evs).countP (fun a => a.2) ≤ (sendAttempts evs).length :=
    List.countP_le_length _
  have h2 := length_sendAttempts_le _ _ _ ha
  obtain ⟨h3, h4⟩ := length_walkedOf_le deps trs peerList preferredPeer maxToSend tr hsh
  have h5 : ((topRatedOf trs peerList maxToSend tr).length : Int) ≤ (peerList.length : Int) :=
    le_trans hrate (min_le_right _ _)
  refine ⟨st.msgSentCounter, _, hres, ?_, hle, ?_, ?_⟩
  · omega
  · omega
  · intro h
    have := h4 h
    omega

/-- C2 (amended), at concrete inputs: candidates [A], quota 2, preferred peer P. -/
theorem sendOnTopic_count_le_witness :
    ((["A"] : List PeerID) ≠ [] ∧ (1 : Int) ≤ 2 ∧ ShuffleContract sampleDeps ∧
      (((sampleSender (fun _ => true) true [] [] [] 2 3 0).peersRatingHandler.GetTopRatedPeersFromList
          [] ["A"] 2).length : Int) ≤ min 2 ((["A"] : List PeerID).length : Int)) ∧
    ∃ n tr1,
      sendOnTopic sampleDeps (sampleSender (fun _ => true) true [] [] [] 2 3 0)
        ["A"] "P" "tx_REQUEST" [1] 2 "cross shard" [] = some (n, tr1) ∧
      0 ≤ n ∧ n ≤ 2 ∧ n ≤ ((["A"] : List PeerID).length : Int) + 1 ∧
      (("P" = "" ∨ (2 : Int) = 1) → n ≤ ((["A"] : List PeerID).length : Int)) :=
  ⟨⟨by decide, by decide, sampleDeps_shuffle, by decide⟩,
   sendOnTopic_count_le sampleDeps (sampleSender (fun _ => true) true [] [] [] 2 3 0)
      ["A"] "P" "tx_REQUEST" [1] 2 "cross shard" []
      (by decide) (by decide) sampleDeps_shuffle (by decide)⟩

/-- C3 (as stated, refuted): with an empty candidate list, preferred peer P and quota 2,
`sendOnTopic` returns at once and attempts no send, so P is not among the attempted
targets. -/
theorem sendOnTopic_empty_list_skips_preferred :
    (("P" : PeerID) ≠ "" ∧ (2 : Int) > 1) ∧
    sendOnTopic sampleDeps (sampleSender (fun _ => true) true [] [] [] 2 3 0)
      [] "P" "tx_REQUEST" [1] 2 "cross shard" [] = some (0, []) ∧
    "P" ∉ attemptedPeers [] := by
  refine ⟨⟨by decide, by decide⟩, by decide, by decide⟩

/-- C3 (amended): in every call of `sendOnTopic` with a non-empty candidate list, a
non-empty preferred peer and `maxToSend > 1`, the preferred peer is among the peers to
which a send is attempted. -/
theorem sendOnTopic_attempts_preferred (deps : Deps) (trs : topicRequestSender)
    (peerList : List PeerID) (preferredPeer : PeerID) (topicToSendRequest : String)
    (buff : Bytes) (maxToSend : Int) (peerType : String) (tr : Trace)
    (hne : peerList ≠ []) (hpref : preferredPeer ≠ "") (hmax : maxToSend > 1)
    (hsh : ShuffleContract deps) :
    ∃ n new,
      sendOnTopic deps trs peerList preferredPeer topicToSendRequest buff maxToSend peerType tr
        = some (n, tr ++ new) ∧
      preferredPeer ∈ attemptedPeers new := by
  obtain ⟨st, evs, _, _, hres, hsa, ha, _, hend, _, _⟩ :=
    sendOnTopic_spec deps trs peerList preferredPeer topicToSendRequest buff maxToSend peerType
      tr hne (by omega) hsh
  refine ⟨st.msgSentCounter, _, hres, ?_⟩
  unfold attemptedPeers
  rw [hsa]
  have hw : walkedOf deps trs peerList preferredPeer maxToSend tr
      = deps.preferredPeerIndex :: shuffledOf deps trs peerList maxToSend tr := by
    unfold walkedOf walkedIndexes
    rw [if_pos ⟨hpref, hmax⟩]
  rw [hw] at ha hend
  cases hA : sendAttempts evs with
  | nil =>
    rw [hA] at hend
    rcases hend with h | ⟨_, A0, p, h⟩
    · simp at h
    · simp at h
  | cons a rest =>
    rw [hA] at ha
    simp only [List.map_cons, List.length_cons, List.take_succ_cons, targetOf_def, if_true] at ha
    have := (List.cons.inj ha).1
    simp only [Option.some.injEq] at this
    simp [this]

/-- C3 (amended), at concrete inputs: candidates [A, B], preferred peer P, quota 2. -/
theorem sendOnTopic_attempts_preferred_witness :
    ((["A", "B"] : List PeerID) ≠ [] ∧ ("P" : PeerID) ≠ "" ∧ (2 : Int) > 1 ∧
      ShuffleContract sampleDeps) ∧
    ∃ n new,
      sendOnTopic sampleDeps (sampleSender (fun _ => true) true [] [] [] 2 3 0)
        ["A", "B"] "P" "tx_REQUEST" [1] 2 "cross shard" [] = some (n, [] ++ new) ∧
      "P" ∈ attemptedPeers new :=
  ⟨⟨by decide, by decide, by decide, sampleDeps_shuffle⟩,
   sendOnTopic_attempts_preferred sampleDeps (sampleSender (fun _ => true) true [] [] [] 2 3 0)
      ["A", "B"] "P" "tx_REQUEST" [1] 2 "cross shard" []
      (by decide) (by decide) (by decide) sampleDeps_shuffle⟩

theorem token_not_mem_shuffledOf (deps : Deps) (trs : topicRequestSender)
    (peerList : List PeerID) (maxToSend : Int) (tr : Trace) (hsh : ShuffleContract deps)
    (htok : deps.preferredPeerIndex < 0) :
    deps.preferredPeerIndex ∉ shuffledOf deps trs peerList maxToSend tr := by
  intro h
  unfold shuffledOf at h
  have := (mem_createIndexList _ _).mp ((hsh _ _ _).mem_iff.mp h)
  omega

theorem targetOf_shuffled (deps : Deps) (trs : topicRequestSender)
    (peerList : List PeerID) (pref : PeerID) (maxToSend : Int) (tr : Trace)
    (hsh : ShuffleContract deps) (htok : deps.preferredPeerIndex < 0) (i : Int)
    (hi : i ∈ shuffledOf deps trs peerList maxToSend tr) :
    targetOf deps (topRatedOf trs peerList maxToSend tr) pref i
        = (topRatedOf trs peerList maxToSend tr)[i.toNat]? ∧
      i.toNat < (topRatedOf trs peerList maxToSend tr).length := by
  unfold shuffledOf at hi
  have hr := (mem_createIndexList _ _).mp ((hsh _ _ _).mem_iff.mp hi)
  have h1 : i ≠ deps.preferredPeerIndex := by omega
  rw [targetOf_def, if_neg h1, if_neg (not_lt.mpr hr.1)]
  exact ⟨rfl, by omega⟩

/-- C6: with `maxToSend == 1` the walked sequence is the shuffled index list itself, for
every preferred peer; so, the shuffle being a permutation and the preferred token not being
a valid index, every attempted target is an entry of the top-rated list, the preferred
branch of `getPeerID` is never taken, and the logged histogram has no count under
"preferred" (the category label being a peer-type name, not the word "preferred"). -/
theorem sendOnTopic_max_one (deps : Deps) (trs : topicRequestSender) (peerList : List PeerID)
    (preferredPeer : PeerID) (topicToSendRequest : String) (buff : Bytes)
    (peerType : String) (tr : Trace)
    (hsh : ShuffleContract deps) (htok : deps.preferredPeerIndex < 0) :
    (∀ shuffledIndexes, walkedIndexes deps preferredPeer 1 shuffledIndexes = shuffledIndexes) ∧
    ∃ n new,
      sendOnTopic deps trs peerList preferredPeer topicToSendRequest buff 1 peerType tr
        = some (n, tr ++ new) ∧
      (∀ p ∈ attemptedPeers new, ∃ i, i < (topRatedOf trs peerList 1 tr).length ∧
        (topRatedOf trs peerList 1 tr)[i]? = some p) ∧
      (∀ p t pt, Event.traceSendingToPreferred p t pt ∉ new) ∧
      (peerType ≠ "preferred" →
        ∀ m t h, Event.traceHistogram m t h ∈ new → histGet h "preferred" = 0) := by
  have hw : ∀ l, walkedIndexes deps preferredPeer 1 l = l := by
    intro l
    unfold walkedIndexes
    rw [if_neg (by rintro ⟨_, h⟩; omega)]
  refine ⟨hw, ?_⟩
  by_cases hne : peerList = []
  · refine ⟨0, [], ?_, ?_, ?_, ?_⟩
    · rw [List.append_nil]
      exact sendOnTopic_of_guard deps trs peerList preferredPeer topicToSendRequest buff 1
        peerType tr (Or.inl (by rw [hne]; rfl))
    · intro p hp
      simp [attemptedPeers, sendAttempts] at hp
    · intro p t pt h
      simp at h
    · intro _ m t h hm
      simp at hm
  · obtain ⟨st, evs, hloop, htr, hres, hsa, ha, _, _, _, _⟩ :=
      sendOnTopic_spec deps trs peerList preferredPeer topicToSendRequest buff 1 peerType
        tr hne (by decide) hsh
    have hwo : walkedOf deps trs peerList preferredPeer 1 tr = shuffledOf deps trs peerList 1 tr := by
      unfold walkedOf
      exact hw _
    have hnot : deps.preferredPeerIndex ∉ walkedOf deps trs peerList preferredPeer 1 tr := by
      rw [hwo]
      exact token_not_mem_shuffledOf deps trs peerList 1 tr hsh htok
    obtain ⟨⟨evs2, htr2, hsend⟩, hhist⟩ :=
      sendLoop_no_token deps trs _ preferredPeer topicToSendRequest buff 1 peerType _ _ st
        hnot hloop
    have hevs : evs = evs2 := by
      rw [htr2] at htr
      exact (List.append_cancel_left htr).symm
    subst hevs
    refine ⟨st.msgSentCounter, _, hres, ?_, ?_, ?_⟩
    · intro p hp
      unfold attemptedPeers at hp
      rw [hsa] at hp
      have hp2 : some p ∈ (sendAttempts evs).map (fun a => some a.1) := by
        obtain ⟨a, ha1, ha2⟩ := List.mem_map.mp hp
        exact List.mem_map.mpr ⟨a, ha1, by rw [ha2]⟩
      rw [ha] at hp2
      obtain ⟨i, hi1, hi2⟩ := List.mem_map.mp hp2
      have hi3 : i ∈ shuffledOf deps trs peerList 1 tr := by
        rw [← hwo]
        exact List.mem_of_mem_take hi1
      obtain ⟨h1, h2⟩ := targetOf_shuffled deps trs peerList preferredPeer 1 tr hsh htok i hi3
      exact ⟨i.toNat, h2, by rw [← h1]; exact hi2⟩
    · intro p t pt h
      simp only [List.mem_append, List.mem_cons, List.mem_singleton, List.not_mem_nil,
        or_false] at h
      rcases h with (h | h) | h
      · rcases h with h | h <;> cases h
      · obtain ⟨q, err, hq⟩ := hsend _ h
        cases hq
      · rcases h with h | h <;> cases h
    · intro hpt m t h hm
      simp only [List.mem_append, List.mem_cons, List.mem_singleton, List.not_mem_nil,
        or_false] at hm
      rcases hm with (hm | hm) | hm
      · rcases hm with hm | hm <;> cases hm
      · obtain ⟨q, err, hq⟩ := hsend _ hm
        cases hq
      · rcases hm with hm | hm
        · cases hm
        · cases hm
          rw [hhist hpt]
          rfl

/-- C6, at concrete inputs: candidates [A, B], preferred peer P, quota 1. -/
theorem sendOnTopic_max_one_witness :
    (ShuffleContract sampleDeps ∧ sampleDeps.preferredPeerIndex < 0) ∧
    (∀ shuffledIndexes, walkedIndexes sampleDeps "P" 1 shuffledIndexes = shuffledIndexes) ∧
    ∃ n new,
      sendOnTopic sampleDeps (sampleSender (fun _ => true) true [] [] [] 2 3 0)
        ["A", "B"] "P" "tx_REQUEST" [1] 1 "cross shard" [] = some (n, [] ++ new) ∧
      (∀ p ∈ attemptedPeers new,
        ∃ i, i < (topRatedOf (sampleSender (fun _ => true) true [] [] [] 2 3 0)
            ["A", "B"] 1 []).length ∧
          (topRatedOf (sampleSender (fun _ => true) true [] [] [] 2 3 0)
            ["A", "B"] 1 [])[i]? = some p) ∧
      (∀ p t pt, Event.traceSendingToPreferred p t pt ∉ new) ∧
      ("cross shard" ≠ "preferred" →
        ∀ m t h, Event.traceHistogram m t h ∈ new → histGet h "preferred" = 0) :=
  ⟨⟨sampleDeps_shuffle, by decide⟩,
   sendOnTopic_max_one sampleDeps (sampleSender (fun _ => true) true [] [] [] 2 3 0)
      ["A", "B"] "P" "tx_REQUEST" [1] "cross shard" [] sampleDeps_shuffle (by decide)⟩

theorem countP_of_all_true (A : List (PeerID × Bool)) (h : ∀ a ∈ A, a.2 = true) :
    A.countP (fun a => a.2) = A.length := by
  induction A with
  | nil => rfl
  | cons a rest ih =>
    have ha := h a (List.mem_cons_self _ _)
    have hr := ih (fun b hb => h b (List.mem_cons_of_mem _ hb))
    simp [List.countP_cons, ha, hr]

/-- C9: for a non-empty candidate list, no preferred peer, `maxToSend >= 1` and sends that
all succeed (the shuffle being a permutation and the preferred token not a valid index),
`sendOnTopic` attempts sends exactly to `ranked[s]` for the first `maxToSend` entries `s`
of the shuffled index list, in that order, each succeeding, and returns
min(len(ranked), maxToSend). -/
theorem sendOnTopic_all_succeed (deps : Deps) (trs : topicRequestSender)
    (peerList : List PeerID) (topicToSendRequest : String) (buff : Bytes) (maxToSend : Int)
    (peerType : String) (tr : Trace)
    (hne : peerList ≠ []) (hmax : 1 ≤ maxToSend)
    (hok : ∀ t p, trs.baseTopicSender.sendToConnectedPeer t topicToSendRequest buff p = none)
    (hsh : ShuffleContract deps) (htok : deps.preferredPeerIndex < 0) :
    ∃ new,
      sendOnTopic deps trs peerList "" topicToSendRequest buff maxToSend peerType tr
        = some (min ((topRatedOf trs peerList maxToSend tr).length : Int) maxToSend, tr ++ new) ∧
      (attemptedPeers new).map some
        = ((shuffledOf deps trs peerList maxToSend tr).take maxToSend.toNat).map
            (fun s => (topRatedOf trs peerList maxToSend tr)[s.toNat]?) ∧
      (∀ a ∈ sendAttempts new, a.2 = true) := by
  obtain ⟨st, evs, _, _, hres, hsa, ha, hcnt, hend, hbefore, hall⟩ :=
    sendOnTopic_spec deps trs peerList "" topicToSendRequest buff maxToSend peerType
      tr hne (by omega) hsh
  have htrue := hall hok
  have hwo : walkedOf deps trs peerList "" maxToSend tr = shuffledOf deps trs peerList maxToSend tr := by
    unfold walkedOf walkedIndexes
    rw [if_neg (by rintro ⟨h, _⟩; exact h rfl)]
  have hshlen : (shuffledOf deps trs peerList maxToSend tr).length
      = (topRatedOf trs peerList maxToSend tr).length := by
    unfold shuffledOf
    rw [(hsh _ _ _).length_eq, length_createIndexList]
  rw [hwo] at ha hend
  have hcount : (sendAttempts evs).countP (fun a => a.2) = (sendAttempts evs).length :=
    countP_of_all_true _ htrue
  have hle1 := length_sendAttempts_le _ _ _ ha
  have hle2 : (sendAttempts evs).length ≤ maxToSend.toNat := by
    by_contra hcon
    have hj : maxToSend.toNat < (sendAttempts evs).length := by omega
    have hb := hbefore _ hj
    have htake : ((sendAttempts evs).take maxToSend.toNat).countP (fun a => a.2)
        = maxToSend.toNat := by
      rw [countP_of_all_true _ (fun a h => htrue a (List.mem_of_mem_take h)), List.length_take]
      omega
    rw [htake] at hb
    omega
  have hlen : (sendAttempts evs).length
      = min (shuffledOf deps trs peerList maxToSend tr).length maxToSend.toNat := by
    rcases hend with h | ⟨h, _⟩
    · omega
    · rw [hcnt, hcount] at h
      omega
  have hn : st.msgSentCounter
      = min ((topRatedOf trs peerList maxToSend tr).length : Int) maxToSend := by
    rw [hcnt, hcount, hlen, hshlen]
    omega
  refine ⟨[Event.GetTopRatedPeersFromList peerList maxToSend,
      Event.FisherYatesShuffle
        (createIndexList (topRatedOf trs peerList maxToSend tr).length)] ++ evs ++
      [Event.traceRequestsSent st.logData,
       Event.traceHistogram maxToSend topicToSendRequest st.histogramMap], ?_, ?_, ?_⟩
  · rw [hres, hn]
  · unfold attemptedPeers
    rw [hsa]
    have hmap : List.map some (List.map Prod.fst (sendAttempts evs))
        = (sendAttempts evs).map (fun a => some a.1) := by
      rw [List.map_map]; rfl
    rw [hmap, ha, hlen]
    have htk : (shuffledOf deps trs peerList maxToSend tr).take
          (min (shuffledOf deps trs peerList maxToSend tr).length maxToSend.toNat)
        = (shuffledOf deps trs peerList maxToSend tr).take maxToSend.toNat := by
      rw [List.take_eq_take]
      omega
    rw [htk]
    apply List.map_congr_left
    intro s hs
    exact (targetOf_shuffled deps trs peerList "" maxToSend tr hsh htok s
      (List.mem_of_mem_take hs)).1
  · rw [hsa]
    exact htrue

/-- C9, at the inputs of the scenario: candidates [A, B, C, D], quota 3, top-rated
[A, B, C], shuffled order [2, 0, 1], no preferred peer, every send succeeding: the sends go
to C, A, B in that order and the count is 3. -/
theorem sendOnTopic_all_succeed_witness :
    ((["A", "B", "C", "D"] : List PeerID) ≠ [] ∧ (1 : Int) ≤ 3 ∧
      ShuffleContract sampleDeps ∧ sampleDeps.preferredPeerIndex < 0) ∧
    (∃ new,
      sendOnTopic sampleDeps (sampleSender (fun _ => true) true [] [] [] 2 3 0)
        ["A", "B", "C", "D"] "" "tx_REQUEST" [1] 3 "cross shard" []
        = some (min ((topRatedOf (sampleSender (fun _ => true) true [] [] [] 2 3 0)
            ["A", "B", "C", "D"] 3 []).length : Int) 3, [] ++ new) ∧
      (attemptedPeers new).map some
        = ((shuffledOf sampleDeps (sampleSender (fun _ => true) true [] [] [] 2 3 0)
            ["A", "B", "C", "D"] 3 []).take (3 : Int).toNat).map
            (fun s => (topRatedOf (sampleSender (fun _ => true) true [] [] [] 2 3 0)
              ["A", "B", "C", "D"] 3 [])[s.toNat]?) ∧
      (∀ a ∈ sendAttempts new, a.2 = true)) ∧
    topRatedOf (sampleSender (fun _ => true) true [] [] [] 2 3 0) ["A", "B", "C", "D"] 3 []
      = ["A", "B", "C"] ∧
    shuffledOf sampleDeps (sampleSender (fun _ => true) true [] [] [] 2 3 0)
      ["A", "B", "C", "D"] 3 [] = [2, 0, 1] ∧
    sendOnTopic sampleDeps (sampleSender (fun _ => true) true [] [] [] 2 3 0)
      ["A", "B", "C", "D"] "" "tx_REQUEST" [1] 3 "cross shard" []
      = some (3,
          [Event.GetTopRatedPeersFromList ["A", "B", "C", "D"] 3,
           Event.FisherYatesShuffle [0, 1, 2],
           Event.sendToConnectedPeer "tx_REQUEST" [1] "C" none,
           Event.sendToConnectedPeer "tx_REQUEST" [1] "A" none,
           Event.sendToConnectedPeer "tx_REQUEST" [1] "B" none,
           Event.traceRequestsSent ["cross shard", "C", "cross shard", "A", "cross shard", "B"],
           Event.traceHistogram 3 "tx_REQUEST" [("cross shard", 3)]]) :=
  ⟨⟨by decide, by decide, sampleDeps_shuffle, by decide⟩,
   sendOnTopic_all_succeed sampleDeps (sampleSender (fun _ => true) true [] [] [] 2 3 0)
      ["A", "B", "C", "D"] "tx_REQUEST" [1] 3 "cross shard" []
      (by decide) (by decide) (fun _ _ => rfl) sampleDeps_shuffle (by decide),
   by decide, by decide, by decide⟩

theorem sendOnTopic_total (deps : Deps) (trs : topicRequestSender) (peerList : List PeerID)
    (pref : PeerID) (topic : String) (buff : Bytes) (maxToSend : Int) (peerType : String)
    (tr : Trace) (hsh : ShuffleContract deps) :
    ∃ n tr1, sendOnTopic deps trs peerList pref topic buff maxToSend peerType tr
      = some (n, tr1) := by
  by_cases h : peerList.length = 0 ∨ maxToSend = 0
  · exact ⟨0, tr, sendOnTopic_of_guard deps trs peerList pref topic buff maxToSend peerType tr h⟩
  · obtain ⟨st, evs, _, _, hres, _⟩ :=
      sendOnTopic_spec deps trs peerList pref topic buff maxToSend peerType tr
        (fun h1 => h (Or.inl (by rw [h1]; rfl))) (fun h1 => h (Or.inr h1)) hsh
    exact ⟨_, _, hres⟩

theorem getPreferredPeersInShard_cases (trs : topicRequestSender) (shardID : Nat)
    (tr : Trace) :
    getPreferredPeersInShard trs shardID tr = (([], false), tr ++ [Event.PreferredPeersGet]) ∨
    ∃ peers, peers.length ≠ 0 ∧
      trs.baseTopicSender.preferredPeersHolderHandler.Get tr shardID = some peers ∧
      getPreferredPeersInShard trs shardID tr
        = ((peers, true), tr ++ [Event.PreferredPeersGet]) := by
  unfold getPreferredPeersInShard
  simp only
  cases hget : trs.baseTopicSender.preferredPeersHolderHandler.Get tr shardID with
  | none => exact Or.inl rfl
  | some peers =>
    by_cases hlen : peers.length = 0
    · left
      simp only [hlen, if_true]
    · right
      exact ⟨peers, hlen, rfl, by simp only [hlen, if_false]⟩

theorem getPreferredPeer_total (trs : topicRequestSender) (shardID : Nat) (tr : Trace)
    (hint : IntnContract trs.randomizer) :
    ∃ p tr1, getPreferredPeer trs shardID tr = some (p, tr1) := by
  unfold getPreferredPeer
  rcases getPreferredPeersInShard_cases trs shardID tr with h | ⟨peers, hlen, _, h⟩
  · rw [h]
    exact ⟨_, _, rfl⟩
  · rw [h]
    simp only
    obtain ⟨h0, h1⟩ := hint (tr ++ [Event.PreferredPeersGet]) (peers.length : Int)
      (by omega)
    rw [if_neg (not_lt.mpr h0)]
    have hlt : (trs.randomizer.Intn (tr ++ [Event.PreferredPeersGet]) ↑peers.length).toNat
        < peers.length := by omega
    rw [List.getElem?_eq_getElem hlt]
    exact ⟨_, _, rfl⟩

theorem sendPhases_total (deps : Deps) (trs : topicRequestSender) (rd : RequestData)
    (topic : String) (buff : Bytes) (tr : Trace)
    (hsh : ShuffleContract deps) (hint : IntnContract trs.randomizer) :
    ∃ r, sendPhases deps trs rd topic buff tr = some r := by
  unfold sendPhases
  cases trs.currentNetworkEpochProviderHandler.EpochIsActiveInNetwork tr rd.Epoch with
  | true =>
    simp only [if_true]
    obtain ⟨p1, t1, hp1⟩ := getPreferredPeer_total trs trs.baseTopicSender.targetShardId
      (tr ++ [Event.EpochIsActiveInNetwork rd.Epoch] ++ [Event.CrossShardPeerList]) hint
    simp only [hp1]
    obtain ⟨n1, t2, hs1⟩ := sendOnTopic_total deps trs
      (trs.peerListCreator.CrossShardPeerList (tr ++ [Event.EpochIsActiveInNetwork rd.Epoch]))
      p1 topic buff trs.numCrossShardPeers deps.CrossShardPeerString t1 hsh
    simp only [hs1]
    obtain ⟨p2, t3, hp2⟩ := getPreferredPeer_total trs trs.selfShardId
      (t2 ++ [Event.IntraShardPeerList]) hint
    simp only [hp2]
    obtain ⟨n2, t4, hs2⟩ := sendOnTopic_total deps trs
      (trs.peerListCreator.IntraShardPeerList t2)
      p2 topic buff trs.numIntraShardPeers deps.IntraShardPeerString t3 hsh
    simp only [hs2]
    exact ⟨_, rfl⟩
  | false =>
    simp only [Bool.false_eq_true, if_false]
    obtain ⟨n1, t2, hs1⟩ := sendOnTopic_total deps trs
      (trs.peerListCreator.FullHistoryList (tr ++ [Event.EpochIsActiveInNetwork rd.Epoch]))
      "" topic buff trs.numFullHistoryPeers deps.FullHistoryPeerString
      (tr ++ [Event.EpochIsActiveInNetwork rd.Epoch] ++ [Event.FullHistoryList]) hsh
    simp only [hs1]
    exact ⟨_, rfl⟩

theorem sendPhases_lists (deps : Deps) (trs : topicRequestSender) (rd : RequestData)
    (topic : String) (buff : Bytes) (tr : Trace) (r : PhaseResult)
    (h : sendPhases deps trs rd topic buff tr = some r) :
    (trs.currentNetworkEpochProviderHandler.EpochIsActiveInNetwork tr rd.Epoch = true →
      r.crossPeers = trs.peerListCreator.CrossShardPeerList
        (tr ++ [Event.EpochIsActiveInNetwork rd.Epoch]) ∧
      (∃ t, r.intraPeers = trs.peerListCreator.IntraShardPeerList t) ∧
      r.fullHistoryPeers = []) ∧
    (trs.currentNetworkEpochProviderHandler.EpochIsActiveInNetwork tr rd.Epoch = false →
      r.crossPeers = [] ∧ r.intraPeers = [] ∧
      r.fullHistoryPeers = trs.peerListCreator.FullHistoryList
        (tr ++ [Event.EpochIsActiveInNetwork rd.Epoch]) ∧
      r.numSentCross = 0) := by
  unfold sendPhases at h
  cases hact : trs.currentNetworkEpochProviderHandler.EpochIsActiveInNetwork tr rd.Epoch with
  | true =>
    rw [hact] at h
    simp only [if_true] at h
    refine ⟨fun _ => ?_, fun hc => by cases hc⟩
    cases hp1 : getPreferredPeer trs trs.baseTopicSender.targetShardId
        (tr ++ [Event.EpochIsActiveInNetwork rd.Epoch] ++ [Event.CrossShardPeerList]) with
    | none => rw [hp1] at h; cases h
    | some x1 =>
      obtain ⟨p1, t1⟩ := x1
      rw [hp1] at h
      simp only at h
      cases hs1 : sendOnTopic deps trs
          (trs.peerListCreator.CrossShardPeerList (tr ++ [Event.EpochIsActiveInNetwork rd.Epoch]))
          p1 topic buff trs.numCrossShardPeers deps.CrossShardPeerString t1 with
      | none => rw [hs1] at h; cases h
      | some x2 =>
        obtain ⟨n1, t2⟩ := x2
        rw [hs1] at h
        simp only at h
        cases hp2 : getPreferredPeer trs trs.selfShardId (t2 ++ [Event.IntraShardPeerList]) with
        | none => rw [hp2] at h; cases h
        | some x3 =>
          obtain ⟨p2, t3⟩ := x3
          rw [hp2] at h
          simp only at h
          cases hs2 : sendOnTopic deps trs (trs.peerListCreator.IntraShardPeerList t2)
              p2 topic buff trs.numIntraShardPeers deps.IntraShardPeerString t3 with
          | none => rw [hs2] at h; cases h
          | some x4 =>
            obtain ⟨n2, t4⟩ := x4
            rw [hs2] at h
            simp only [Option.some.injEq] at h
            subst h
            exact ⟨rfl, ⟨t2, rfl⟩, rfl⟩
  | false =>
    rw [hact] at h
    simp only [Bool.false_eq_true, if_false] at h
    refine ⟨fun hc => (by cases hc), fun _ => ?_⟩
    cases hs1 : sendOnTopic deps trs
        (trs.peerListCreator.FullHistoryList (tr ++ [Event.EpochIsActiveInNetwork rd.Epoch]))
        "" topic buff trs.numFullHistoryPeers deps.FullHistoryPeerString
        (tr ++ [Event.EpochIsActiveInNetwork rd.Epoch] ++ [Event.FullHistoryList]) with
    | none => rw [hs1] at h; cases h
    | some x1 =>
      obtain ⟨n1, t2⟩ := x1
      rw [hs1] at h
      simp only [Option.some.injEq] at h
      subst h
      exact ⟨rfl, rfl, rfl, rfl⟩

theorem sampleSender_intn (accepts : PeerID → Bool) (active : Bool)
    (cross intra full : List PeerID) (numIntra numCross numFull : Int) :
    IntnContract (sampleSender accepts active cross intra full numIntra numCross numFull).randomizer :=
  fun _ _ hn => ⟨le_refl _, hn⟩

/-- C1: when serialization succeeds, `SendOnRequestTopic` runs the epoch branch, calls the
debug handler with the two counts, and returns the error `ErrSendRequest` exactly when
`numSentCross + numSentIntra == 0` and nil otherwise.  The error wraps `ErrSendRequest` with
a text made of the topic name and the lengths of the cross-shard, intra-shard and
full-history lists of that call: with the epoch active these are the fetched cross and
intra lists and an empty full-history list, with the epoch inactive they are two empty lists
and the fetched full-history list.  The epoch branch completes (no index out of range)
whenever the shuffle is a permutation and `Intn` answers within its bound; a panic in it
is a panic of the call. -/
theorem SendOnRequestTopic_verdict (deps : Deps) (trs : topicRequestSender)
    (rd : RequestData) (originalHashes : List Bytes) (tr : Trace) (buff : Bytes)
    (hm : trs.marshaller.Marshal tr rd = Except.ok buff) :
    (∀ r,
      sendPhases deps trs rd (trs.topicName ++ deps.topicRequestSuffix) buff
        (tr ++ [Event.Marshal rd]) = some r →
      SendOnRequestTopic deps trs rd originalHashes tr
        = some
            (if r.numSentCross + r.numSentIntra = 0 then
              some (GoError.wrapf GoError.ErrSendRequest
                (", topic: " ++ trs.topicName ++
                 ", crossPeers: " ++ toString r.crossPeers.length ++
                 ", intraPeers: " ++ toString r.intraPeers.length ++
                 ", fullHistoryPeers: " ++ toString r.fullHistoryPeers.length))
             else none,
             r.trace ++ [Event.LogRequestedData trs.topicName originalHashes
               r.numSentIntra r.numSentCross]) ∧
      (trs.currentNetworkEpochProviderHandler.EpochIsActiveInNetwork
          (tr ++ [Event.Marshal rd]) rd.Epoch = true →
        r.crossPeers = trs.peerListCreator.CrossShardPeerList
          (tr ++ [Event.Marshal rd] ++ [Event.EpochIsActiveInNetwork rd.Epoch]) ∧
        (∃ t, r.intraPeers = trs.peerListCreator.IntraShardPeerList t) ∧
        r.fullHistoryPeers = []) ∧
      (trs.currentNetworkEpochProviderHandler.EpochIsActiveInNetwork
          (tr ++ [Event.Marshal rd]) rd.Epoch = false →
        r.crossPeers = [] ∧ r.intraPeers = [] ∧
        r.fullHistoryPeers = trs.peerListCreator.FullHistoryList
          (tr ++ [Event.Marshal rd] ++ [Event.EpochIsActiveInNetwork rd.Epoch]) ∧
        r.numSentCross = 0)) ∧
    (sendPhases deps trs rd (trs.topicName ++ deps.topicRequestSuffix) buff
        (tr ++ [Event.Marshal rd]) = none →
      SendOnRequestTopic deps trs rd originalHashes tr = none) ∧
    (ShuffleContract deps → IntnContract trs.randomizer →
      ∃ r, sendPhases deps trs rd (trs.topicName ++ deps.topicRequestSuffix) buff
        (tr ++ [Event.Marshal rd]) = some r) := by
  refine ⟨?_, ?_, ?_⟩
  · intro r hr
    obtain ⟨h1, h2⟩ := sendPhases_lists deps trs rd _ buff _ r hr
    refine ⟨?_, h1, h2⟩
    unfold SendOnRequestTopic
    simp only [hm, hr, callDebugHandler, sendRequestText]
    split <;> rfl
  · intro hr
    unfold SendOnRequestTopic
    simp only [hm, hr]
  · intro hsh hint
    exact sendPhases_total deps trs rd _ buff _ hsh hint

/-- C1, at the inputs of the scenario: quotas intra 1 and cross 1, epoch inactive, no
full-history candidate: the call fails with `ErrSendRequest` and the text reports
crossPeers 0, intraPeers 0, fullHistoryPeers 0. -/
theorem SendOnRequestTopic_verdict_witness :
    (sampleSender (fun _ => true) false ["A"] ["B"] [] 1 1 3).marshaller.Marshal []
        ⟨[7], 5⟩ = Except.ok [7] ∧
    SendOnRequestTopic sampleDeps (sampleSender (fun _ => true) false ["A"] ["B"] [] 1 1 3)
        ⟨[7], 5⟩ [[9]] []
      = some
          (some (GoError.wrapf GoError.ErrSendRequest
            ", topic: tx, crossPeers: 0, intraPeers: 0, fullHistoryPeers: 0"),
           [Event.Marshal ⟨[7], 5⟩, Event.EpochIsActiveInNetwork 5, Event.FullHistoryList,
            Event.LogRequestedData "tx" [[9]] 0 0]) :=
  ⟨rfl,
   (((SendOnRequestTopic_verdict sampleDeps
      (sampleSender (fun _ => true) false ["A"] ["B"] [] 1 1 3) ⟨[7], 5⟩ [[9]] [] [7] rfl).1
      { numSentIntra := 0, numSentCross := 0, intraPeers := [], crossPeers := [],
        fullHistoryPeers := [],
        trace := [Event.Marshal ⟨[7], 5⟩, Event.EpochIsActiveInNetwork 5,
          Event.FullHistoryList] }
      (by decide)).1).trans (by decide)⟩

theorem getPreferredPeersInShard_of_missing (trs : topicRequestSender) (shardID : Nat)
    (tr : Trace)
    (h : trs.baseTopicSender.preferredPeersHolderHandler.Get tr shardID = none ∨
      trs.baseTopicSender.preferredPeersHolderHandler.Get tr shardID = some []) :
    getPreferredPeersInShard trs shardID tr = (([], false), tr ++ [Event.PreferredPeersGet]) := by
  unfold getPreferredPeersInShard
  simp only
  rcases h with h | h
  · rw [h]
  · rw [h]
    rfl

theorem getPreferredPeersInShard_of_found (trs : topicRequestSender) (shardID : Nat)
    (tr : Trace) (peers : List PeerID)
    (h : trs.baseTopicSender.preferredPeersHolderHandler.Get tr shardID = some peers)
    (hne : peers ≠ []) :
    getPreferredPeersInShard trs shardID tr
      = ((peers, true), tr ++ [Event.PreferredPeersGet]) := by
  unfold getPreferredPeersInShard
  simp only
  rw [h]
  have hlen : ¬ peers.length = 0 := fun hc => hne (List.length_eq_zero.mp hc)
  simp only [hlen, if_false]

/-! ### Preferred-peer resolution -/

/-- C12: `getPreferredPeer` returns the empty peer id, the only interaction being the `Get`
on the holder (no `Intn` call), when the mapping has no entry for the shard or the entry is
an empty list.  Otherwise the list has positive length `n`, and when `Intn(n)` answers in
`[0, n)` the method calls `Intn` once, with `n`, and returns `list[Intn(n)]`, a member of
that shard's list.  Whenever the method returns, every `Intn` call it made had a positive
argument. -/
theorem getPreferredPeer_spec (trs : topicRequestSender) (shardID : Nat) (tr : Trace) :
    ((trs.baseTopicSender.preferredPeersHolderHandler.Get tr shardID = none ∨
        trs.baseTopicSender.preferredPeersHolderHandler.Get tr shardID = some []) →
      getPreferredPeer trs shardID tr = some ("", tr ++ [Event.PreferredPeersGet])) ∧
    (∀ peers, trs.baseTopicSender.preferredPeersHolderHandler.Get tr shardID = some peers →
      peers ≠ [] →
      (0 : Int) < peers.length ∧
      (0 ≤ trs.randomizer.Intn (tr ++ [Event.PreferredPeersGet]) peers.length →
        trs.randomizer.Intn (tr ++ [Event.PreferredPeersGet]) peers.length < peers.length →
        ∃ peer,
          getPreferredPeer trs shardID tr
            = some (peer, tr ++ [Event.PreferredPeersGet] ++ [Event.Intn peers.length]) ∧
          peers[(trs.randomizer.Intn (tr ++ [Event.PreferredPeersGet]) peers.length).toNat]?
            = some peer ∧
          peer ∈ peers)) ∧
    (∀ p t, getPreferredPeer trs shardID tr = some (p, t) →
      ∃ new, t = tr ++ new ∧ ∀ n, Event.Intn n ∈ new → 0 < n) := by
  refine ⟨?_, ?_, ?_⟩
  · intro h
    unfold getPreferredPeer
    rw [getPreferredPeersInShard_of_missing trs shardID tr h]
  · intro peers hget hne
    have hpos : 0 < peers.length := List.length_pos.mpr hne
    refine ⟨by omega, ?_⟩
    intro h0 h1
    have hlt : (trs.randomizer.Intn (tr ++ [Event.PreferredPeersGet]) ↑peers.length).toNat
        < peers.length := by omega
    refine ⟨peers[(trs.randomizer.Intn (tr ++ [Event.PreferredPeersGet])
      ↑peers.length).toNat], ?_, List.getElem?_eq_getElem hlt, List.getElem_mem _⟩
    unfold getPreferredPeer
    rw [getPreferredPeersInShard_of_found trs shardID tr peers hget hne]
    simp only
    rw [if_neg (not_lt.mpr h0), List.getElem?_eq_getElem hlt]
  · intro p t h
    unfold getPreferredPeer at h
    rcases getPreferredPeersInShard_cases trs shardID tr with hc | ⟨peers, hlen, _, hc⟩
    · rw [hc] at h
      simp only [Option.some.injEq, Prod.mk.injEq] at h
      refine ⟨[Event.PreferredPeersGet], h.2.symm, ?_⟩
      intro n hn
      simp at hn
    · rw [hc] at h
      simp only at h
      split at h
      · cases h
      · split at h
        · cases h
        · simp only [Option.some.injEq, Prod.mk.injEq] at h
          refine ⟨[Event.PreferredPeersGet, Event.Intn peers.length], ?_, ?_⟩
          · rw [← h.2]
            simp
          · intro n hn
            simp only [List.mem_cons, List.mem_singleton, List.not_mem_nil, or_false] at hn
            rcases hn with hn | hn
            · cases hn
            · cases hn
              omega

/-- C12, at a concrete holder mapping shard 1 to [P, Q], shard 2 to the empty list and
nothing else: shards 3 and 2 give the empty peer id without an `Intn` call, and shard 1 with
`Intn(2) = 1` gives Q. -/
theorem getPreferredPeer_spec_witness :
    getPreferredPeer (samplePreferredSender (fun _ => true) 1) 3 []
      = some ("", [Event.PreferredPeersGet]) ∧
    getPreferredPeer (samplePreferredSender (fun _ => true) 1) 2 []
      = some ("", [Event.PreferredPeersGet]) ∧
    ∃ peer,
      getPreferredPeer (samplePreferredSender (fun _ => true) 1) 1 []
        = some (peer, [] ++ [Event.PreferredPeersGet] ++
            [Event.Intn ((["P", "Q"] : List PeerID).length : Int)]) ∧
      (["P", "Q"] : List PeerID)[((samplePreferredSender (fun _ => true) 1).randomizer.Intn
          ([] ++ [Event.PreferredPeersGet])
          ((["P", "Q"] : List PeerID).length : Int)).toNat]? = some peer ∧
      peer ∈ (["P", "Q"] : List PeerID) :=
  ⟨(getPreferredPeer_spec (samplePreferredSender (fun _ => true) 1) 3 []).1 (Or.inl rfl),
   (getPreferredPeer_spec (samplePreferredSender (fun _ => true) 1) 2 []).1 (Or.inr rfl),
   ((getPreferredPeer_spec (samplePreferredSender (fun _ => true) 1) 1 []).2.1
      ["P", "Q"] rfl (by decide)).2 (by decide) (by decide)⟩

/-! ### The preferred token -/

/-- C11: for a non-empty candidate list, a non-empty preferred peer and `maxToSend > 1`
(the shuffle being a permutation), the walked sequence is the preferred token followed by
the whole shuffled index list, which is a permutation of `[0, len(ranked))`, so its length
is `len(ranked) + 1`.  The first send attempt targets the preferred peer; the later
attempts go, in order, to the targets of an initial segment of the shuffled list (entries
of the ranked list when the token is not a valid index), and all `len(ranked)` of them are
attempted unless the count reached `maxToSend`; a failed first send is not counted. -/
theorem sendOnTopic_preferred_first (deps : Deps) (trs : topicRequestSender)
    (peerList : List PeerID) (preferredPeer : PeerID) (topicToSendRequest : String)
    (buff : Bytes) (maxToSend : Int) (peerType : String) (tr : Trace)
    (hne : peerList ≠ []) (hpref : preferredPeer ≠ "") (hmax : maxToSend > 1)
    (hsh : ShuffleContract deps) :
    walkedOf deps trs peerList preferredPeer maxToSend tr
      = deps.preferredPeerIndex :: shuffledOf deps trs peerList maxToSend tr ∧
    List.Perm (shuffledOf deps trs peerList maxToSend tr)
      (createIndexList (topRatedOf trs peerList maxToSend tr).length) ∧
    (walkedOf deps trs peerList preferredPeer maxToSend tr).length
      = (topRatedOf trs peerList maxToSend tr).length + 1 ∧
    ∃ n new first rest,
      sendOnTopic deps trs peerList preferredPeer topicToSendRequest buff maxToSend peerType tr
        = some (n, tr ++ new) ∧
      sendAttempts new = first :: rest ∧
      first.1 = preferredPeer ∧
      rest.map (fun a => some a.1)
        = ((shuffledOf deps trs peerList maxToSend tr).take rest.length).map
            (targetOf deps (topRatedOf trs peerList maxToSend tr) preferredPeer) ∧
      (deps.preferredPeerIndex < 0 →
        rest.map (fun a => some a.1)
          = ((shuffledOf deps trs peerList maxToSend tr).take rest.length).map
              (fun s => (topRatedOf trs peerList maxToSend tr)[s.toNat]?)) ∧
      rest.length ≤ (topRatedOf trs peerList maxToSend tr).length ∧
      (rest.length = (topRatedOf trs peerList maxToSend tr).length ∨ n = maxToSend) ∧
      (first.2 = false → n = (rest.countP (fun a => a.2) : Nat)) := by
  have hw : walkedOf deps trs peerList preferredPeer maxToSend tr
      = deps.preferredPeerIndex :: shuffledOf deps trs peerList maxToSend tr := by
    unfold walkedOf walkedIndexes
    rw [if_pos ⟨hpref, hmax⟩]
  have hperm : List.Perm (shuffledOf deps trs peerList maxToSend tr)
      (createIndexList (topRatedOf trs peerList maxToSend tr).length) := by
    unfold shuffledOf
    exact hsh _ _ _
  have hshlen : (shuffledOf deps trs peerList maxToSend tr).length
      = (topRatedOf trs peerList maxToSend tr).length := by
    rw [hperm.length_eq, length_createIndexList]
  refine ⟨hw, hperm, by rw [hw, List.length_cons, hshlen], ?_⟩
  obtain ⟨st, evs, _, _, hres, hsa, ha, hcnt, hend, _, _⟩ :=
    sendOnTopic_spec deps trs peerList preferredPeer topicToSendRequest buff maxToSend peerType
      tr hne (by omega) hsh
  rw [hw] at ha hend
  cases hA : sendAttempts evs with
  | nil =>
    rw [hA] at hend
    rcases hend with h | ⟨_, A0, p, h⟩
    · simp at h
    · simp at h
  | cons a rest =>
    rw [hA] at ha hend hcnt
    simp only [List.map_cons, List.length_cons, List.take_succ_cons, targetOf_def, if_true,
      List.cons.injEq, Option.some.injEq] at ha
    obtain ⟨ha1, ha2⟩ := ha
    have hrest : rest.map (fun a => some a.1)
        = ((shuffledOf deps trs peerList maxToSend tr).take rest.length).map
            (targetOf deps (topRatedOf trs peerList maxToSend tr) preferredPeer) := ha2
    have hle : rest.length ≤ (shuffledOf deps trs peerList maxToSend tr).length :=
      length_sendAttempts_le rest _ _ hrest
    refine ⟨st.msgSentCounter, _, a, rest, hres, by rw [hsa, hA], ha1, hrest, ?_, ?_, ?_, ?_⟩
    · intro htok
      rw [hrest]
      apply List.map_congr_left
      intro s hs
      exact (targetOf_shuffled deps trs peerList preferredPeer maxToSend tr hsh htok s
        (List.mem_of_mem_take hs)).1
    · omega
    · rcases hend with h | ⟨h, _⟩
      · left
        simp only [List.length_cons] at h
        omega
      · right
        exact h
    · intro hfail
      rw [hcnt, List.countP_cons, hfail]
      simp

/-- C11, at concrete inputs: candidates [A, B], preferred peer P whose send fails, quota 2,
shuffled order [1, 0]: the walk is [-1, 1, 0], the attempts go to P (failing), B and A, and
the count is 2. -/
theorem sendOnTopic_preferred_first_witness :
    ((["A", "B"] : List PeerID) ≠ [] ∧ ("P" : PeerID) ≠ "" ∧ (2 : Int) > 1 ∧
      ShuffleContract sampleDeps) ∧
    walkedOf sampleDeps (samplePreferredSender (fun p => p != "P") 0) ["A", "B"] "P" 2 []
      = sampleDeps.preferredPeerIndex ::
          shuffledOf sampleDeps (samplePreferredSender (fun p => p != "P") 0) ["A", "B"] 2 [] ∧
    walkedOf sampleDeps (samplePreferredSender (fun p => p != "P") 0) ["A", "B"] "P" 2 []
      = [-1, 1, 0] ∧
    sendOnTopic sampleDeps (samplePreferredSender (fun p => p != "P") 0)
      ["A", "B"] "P" "tx_REQUEST" [1] 2 "cross shard" []
      = some (2,
          [Event.GetTopRatedPeersFromList ["A", "B"] 2,
           Event.FisherYatesShuffle [0, 1],
           Event.traceSendingToPreferred "P" "tx_REQUEST" "cross shard",
           Event.sendToConnectedPeer "tx_REQUEST" [1] "P"
             (some (GoError.external "send failed")),
           Event.sendToConnectedPeer "tx_REQUEST" [1] "B" none,
           Event.sendToConnectedPeer "tx_REQUEST" [1] "A" none,
           Event.traceRequestsSent ["cross shard", "B", "cross shard", "A"],
           Event.traceHistogram 2 "tx_REQUEST" [("preferred", 1), ("cross shard", 2)]]) :=
  ⟨⟨by decide, by decide, by decide, sampleDeps_shuffle⟩,
   (sendOnTopic_preferred_first sampleDeps (samplePreferredSender (fun p => p != "P") 0)
      ["A", "B"] "P" "tx_REQUEST" [1] 2 "cross shard" []
      (by decide) (by decide) (by decide) sampleDeps_shuffle).1,
   by decide, by decide⟩

end TopicSender
